import Mathlib

/-!
Verification of the task-lifecycle and queue-scheduling core of the video
downloader backend (src/main.py, with src/app.py a near-duplicate of the same
scheduling logic under a different HTTP framework).

The embedding translates the Python source into Lean:

* the module-level mutable state (`tasks`, `queue`, `processing_task_id`, the
  `downloads/` directory tree) becomes the record `SchedState`;
* each Python function that mutates this state becomes a pure Lean function
  from state to state (`create_download_task`, `process_next_in_queue`,
  `downloadStart`/`downloadFinish` for the two synchronous halves of
  `download_video`, `cancel_task`, `cleanup_old_files`, `get_task_status`);
* `asyncio.create_task(download_video(...))` schedules a coroutine that does
  not run yet: the scheduled-but-not-started coroutines are the `pending`
  list, and the coroutines suspended at `await loop.run_in_executor`
  (the blocking yt-dlp call) are the `inflight` list.  `Event`/`step`/`run`
  give the small-step semantics over these interleavings;
* the opaque fetcher (yt-dlp) is an oracle: `FetchOutcome` is the value the
  executor call returns or the exception it raises;
* timestamps (`datetime.now()`) are integers (seconds); `shutil.rmtree`
  failures in the reaper are an oracle `rmFail`;
* Python floats in `format_size` are idealised as exact rationals, with the
  one-decimal rendering of the .1f format modelled by `fmtQ1`.
-/

/-- TaskRec status strings of the source: 'queued' | 'processing' | 'completed' | 'error'. -/
inductive Status where
  | queued
  | processing
  | completed
  | error
deriving DecidableEq

/-- The `video_info` dict built in `download_video`. -/
structure VideoInfo where
  title : String
  duration : String
  quality : String
  size : String
deriving DecidableEq

/-- One entry of the `tasks` dict (src/main.py `create_download_task` plus the
fields added later by `download_video`). -/
structure TaskRec where
  url : String
  quality : Nat
  status : Status
  progress : Nat
  createdAt : Int
  completedAt : Option Int
  errorMsg : Option String
  videoInfo : Option VideoInfo
  filePath : Option String
deriving DecidableEq

/-- Constant `MAX_QUEUE_SIZE = 5` (src/main.py line 34). -/
def MAX_QUEUE_SIZE : Nat := 5

/-- Constant `MAX_QUALITY = 720` (src/main.py line 36). -/
def MAX_QUALITY : Nat := 720

/-- Constant `CLEANUP_AFTER_HOURS = 2` (src/main.py line 35), expressed in seconds since
timestamps are modelled in seconds. -/
def CLEANUP_AFTER_SECONDS : Int := 2 * 3600

/-- The process-wide mutable state of the module: the `tasks` dict (an
insertion-ordered association list, as Python dicts are), the `queue` list,
`processing_task_id`, the set of per-task directories existing on disk, the
list of download coroutines created by `asyncio.create_task` but not yet
started (`pending`), the list of coroutines suspended at the executor call
(`inflight`), a fresh-id counter standing for `uuid.uuid4()`, and a counter of
how many times the blocking fetcher has been dispatched. -/
structure SchedState where
  tasks : List (Nat × TaskRec)
  queue : List Nat
  processing : Option Nat
  pending : List Nat
  inflight : List Nat
  dirs : List Nat
  nextId : Nat
  fetchCalls : Nat
deriving DecidableEq

/-- Python `tasks.get(task_id)`: first binding of the key in the association list. -/
def lookupTask : List (Nat × TaskRec) → Nat → Option TaskRec
  | [], _ => none
  | (k, t) :: rest, id => if k = id then some t else lookupTask rest id

/-- Python `tasks[task_id][...] = ...`: in-place mutation of the binding of `id`. -/
def updateTask : List (Nat × TaskRec) → Nat → (TaskRec → TaskRec) → List (Nat × TaskRec)
  | [], _, _ => []
  | (k, t) :: rest, id, f =>
      if k = id then (k, f t) :: rest else (k, t) :: updateTask rest id f

/-- Python `del tasks[task_id]`: drop the binding of `id`. -/
def removeTask (ts : List (Nat × TaskRec)) (id : Nat) : List (Nat × TaskRec) :=
  ts.filter (fun p => p.1 != id)

/-- Python `queue.index(task_id)` (Python `list.index`). -/
def listIndex (a : Nat) : List Nat → Nat
  | [] => 0
  | b :: l => if b = a then 0 else listIndex a l + 1

/-- Platforms returned by `detect_platform`. -/
inductive Platform where
  | youtube
  | vk
  | instagram
  | unknown
deriving DecidableEq

/-- Python's `pat in s` substring test on character lists. -/
def strIn (pat : List Char) : List Char → Bool
  | [] => decide (pat = [])
  | c :: rest => pat.isPrefixOf (c :: rest) || strIn pat rest

/-- Function `detect_platform` (src/main.py lines 58-69): lowercase the URL, then test
the five platform substrings in order. -/
def detect_platform (url : String) : Platform :=
  let u := url.data.map Char.toLower
  if strIn "youtube.com".data u || strIn "youtu.be".data u then Platform.youtube
  else if strIn "vk.com".data u || strIn "vkvideo.ru".data u then Platform.vk
  else if strIn "instagram.com".data u then Platform.instagram
  else Platform.unknown

/-- Python's 02d format: zero-pad to two digits. -/
def pad2 (n : Nat) : String :=
  if n < 10 then "0" ++ toString n else toString n

/-- Function `format_duration` (src/main.py lines 228-240).  `if not seconds` is the
Python falsy test, i.e. `seconds == 0`. -/
def format_duration (seconds : Nat) : String :=
  if seconds = 0 then "Неизвестно"
  else
    let hours := seconds / 3600
    let minutes := seconds % 3600 / 60
    let secs := seconds % 60
    if hours > 0 then
      toString hours ++ ":" ++ pad2 minutes ++ ":" ++ pad2 secs
    else
      toString minutes ++ ":" ++ pad2 secs

/-- The one-decimal .1f rendering of a non-negative value, idealised
over exact rationals: round `x * 10` to the nearest integer (Mathlib's
`round`) and print it with the decimal point reinserted. -/
def fmtQ1 (q : ℚ) : String :=
  let m := (round (q * 10)).toNat
  toString (m / 10) ++ "." ++ toString (m % 10)

/-- The `for unit in [...]` loop of `format_size` (src/main.py lines 243-249):
divide by 1024 until the value drops below 1024 or the unit list is
exhausted. -/
def format_size_go (b : ℚ) : List String → String
  | [] => fmtQ1 b ++ " ТБ"
  | u :: us => if b < 1024 then fmtQ1 b ++ " " ++ u else format_size_go (b / 1024) us

/-- Function `format_size` (src/main.py lines 243-249), with Python floats idealised as
rationals. -/
def format_size (b : ℚ) : String :=
  format_size_go b ["Б", "КБ", "МБ", "ГБ"]

/-- Function `process_next_in_queue` (src/main.py lines 209-225): if nothing is
processing and the queue is nonempty, pop the head; if the popped task still
exists with status 'queued', create (but do not yet start) its download
coroutine — otherwise the popped id is simply dropped, with no retry. -/
def process_next_in_queue (s : SchedState) : SchedState :=
  if s.processing = none then
    match s.queue with
    | [] => s
    | next :: rest =>
        match lookupTask s.tasks next with
        | some t =>
            if t.status = Status.queued then
              { s with queue := rest, pending := s.pending ++ [next] }
            else
              { s with queue := rest }
        | none => { s with queue := rest }
  else s

/-- The result of `create_download_task`: HTTP 429 or the success payload
(task id plus the reported `queue_position = len(queue)` after the append). -/
inductive SubmitResult where
  | queueFull
  | created (task_id : Nat) (queue_position : Nat)
deriving DecidableEq

/-- Function `create_download_task` (src/main.py lines 303-343): reject with 429 when
the queue length is at least `MAX_QUEUE_SIZE`, otherwise create the task record, append its
fresh id to the queue, and — when `processing_task_id is None` — immediately
call `process_next_in_queue()`. -/
def create_download_task (now : Int) (url : String) (quality : Nat)
    (s : SchedState) : SubmitResult × SchedState :=
  if MAX_QUEUE_SIZE ≤ s.queue.length then
    (SubmitResult.queueFull, s)
  else
    let task_id := s.nextId
    let task : TaskRec :=
      { url := url, quality := quality, status := Status.queued, progress := 0,
        createdAt := now, completedAt := none, errorMsg := none,
        videoInfo := none, filePath := none }
    let s1 : SchedState :=
      { s with tasks := s.tasks ++ [(task_id, task)],
               queue := s.queue ++ [task_id],
               nextId := s.nextId + 1 }
    let queue_position := s1.queue.length
    let s2 := if s1.processing = none then process_next_in_queue s1 else s1
    (SubmitResult.created task_id queue_position, s2)

/-- The message of the exception raised for an unsupported platform
(src/main.py line 149). -/
def unsupportedMsg : String :=
  "Неподдерживаемая платформа. Поддерживаются: YouTube, VK, Instagram"

/-- The first, synchronous half of `download_video` (src/main.py lines
140-173), run when the scheduled coroutine first executes: mark the task
'processing' (progress 10), record `processing_task_id`, detect the platform —
raising before any fetcher work when it is unknown (the `except` block then
stores status 'error', and the `finally` block clears `processing_task_id` and
calls `process_next_in_queue()`) — otherwise create the task directory, reach
progress 30 and dispatch the blocking fetch to the executor, where the
coroutine suspends.  When the task record was deleted before the coroutine
started, the very first dict access raises `KeyError`, the `except` block
raises `KeyError` again, and only the `finally` block runs. -/
def downloadStart (s : SchedState) (id : Nat) : SchedState :=
  match lookupTask s.tasks id with
  | none =>
      process_next_in_queue { s with processing := none }
  | some t =>
      let s1 : SchedState :=
        { s with
            tasks := updateTask s.tasks id
              (fun u => { u with status := Status.processing, progress := 10 }),
            processing := some id }
      if detect_platform t.url = Platform.unknown then
        process_next_in_queue
          { s1 with
              tasks := updateTask s1.tasks id
                (fun u => { u with status := Status.error,
                                   errorMsg := some unsupportedMsg }),
              processing := none }
      else
        { s1 with
            tasks := updateTask s1.tasks id (fun u => { u with progress := 30 }),
            dirs := if id ∈ s1.dirs then s1.dirs else s1.dirs ++ [id],
            inflight := s1.inflight ++ [id],
            fetchCalls := s1.fetchCalls + 1 }

/-- What `await loop.run_in_executor(...)` produces: the `info` dict together
with the size of the downloaded file found by the glob (or `none` when the
glob finds nothing), or the exception raised by the fetch. -/
inductive FetchOutcome where
  | success (title : String) (duration : Nat) (fileSize : Option Nat)
  | failure (msg : String)
deriving DecidableEq

/-- The mutation the second half of `download_video` applies to the task
record (src/main.py lines 175-201): on success populate `video_info` (title,
formatted duration, the quality label built from min(quality, MAX_QUALITY), the
formatted size of the file found by the glob — `'Уточняется'` when the glob
found nothing), set status 'completed', progress 100 and `completed_at = now`;
on a raised exception set status 'error' and the error message — with no
`completed_at`. -/
def finishUpdate (now : Int) (id : Nat) (outcome : FetchOutcome)
    (u : TaskRec) : TaskRec :=
  match outcome with
  | FetchOutcome.failure msg =>
      { u with status := Status.error, errorMsg := some msg }
  | FetchOutcome.success title duration fileSize =>
      let vi0 : VideoInfo :=
        { title := title, duration := format_duration duration,
          quality := toString (min u.quality MAX_QUALITY) ++ "p",
          size := "Уточняется" }
      let vi : VideoInfo :=
        match fileSize with
        | none => vi0
        | some n => { vi0 with size := format_size (n : ℚ) }
      let fp : Option String :=
        match fileSize with
        | none => u.filePath
        | some _ => some ("downloads/" ++ toString id ++ "/" ++ title)
      { u with videoInfo := some vi, status := Status.completed,
               progress := 100, completedAt := some now, filePath := fp }

/-- The second half of `download_video` (src/main.py lines 175-206), run when
the executor call completes: apply `finishUpdate` to the task record, then —
in the `finally` block — clear `processing_task_id` and call
`process_next_in_queue()`.  When the record was deleted mid-fetch, the dict
accesses raise `KeyError` and only the `finally` block acts. -/
def downloadFinish (now : Int) (id : Nat) (outcome : FetchOutcome)
    (s : SchedState) : SchedState :=
  let s1 : SchedState :=
    match lookupTask s.tasks id with
    | none => s
    | some _ =>
        { s with tasks := updateTask s.tasks id (finishUpdate now id outcome) }
  process_next_in_queue { s1 with processing := none }

/-- Result of `DELETE /api/task/{task_id}`. -/
inductive CancelResult where
  | notFound
  | ok
deriving DecidableEq

/-- Function `cancel_task` (src/main.py lines 420-442): 404 when the id is unknown;
otherwise remove the id from the queue if present (`list.remove`, i.e. erase
the first occurrence), remove the task directory if it exists, and delete the
record — with no check of the task's status. -/
def cancel_task (id : Nat) (s : SchedState) : CancelResult × SchedState :=
  match lookupTask s.tasks id with
  | none => (CancelResult.notFound, s)
  | some _ =>
      let q := if id ∈ s.queue then s.queue.erase id else s.queue
      let d := s.dirs.filter (fun x => x != id)
      (CancelResult.ok, { s with queue := q, dirs := d, tasks := removeTask s.tasks id })

/-- One iteration of the `for task_id, task in tasks.items()` loop of
`cleanup_old_files` (src/main.py lines 259-267), run inside the single `try`
that wraps the whole cycle.  Returns the state with the directories removed so
far, the accumulated `tasks_to_remove`, and whether the loop completed without
an exception.  An `rmFail` on an existing directory models `shutil.rmtree`
raising, which aborts the entire loop. -/
def cleanupLoop (rmFail : Nat → Bool) (now : Int) :
    List (Nat × TaskRec) → SchedState → List Nat → SchedState × List Nat × Bool
  | [], s, toRemove => (s, toRemove, true)
  | (id, t) :: rest, s, toRemove =>
      match t.completedAt with
      | some c =>
          if CLEANUP_AFTER_SECONDS < now - c then
            if id ∈ s.dirs then
              if rmFail id then (s, toRemove, false)
              else cleanupLoop rmFail now rest
                { s with dirs := s.dirs.erase id } (toRemove ++ [id])
            else cleanupLoop rmFail now rest s (toRemove ++ [id])
          else cleanupLoop rmFail now rest s toRemove
      | none => cleanupLoop rmFail now rest s toRemove

/-- One cycle of `cleanup_old_files` (src/main.py lines 252-280): scan all
tasks, removing directories of tasks whose `completed_at` is older than the
retention window; when the scan completes without an exception, delete the
collected records from `tasks`; when `shutil.rmtree` raises, the `except`
block only logs — the records collected so far are NOT deleted. -/
def cleanup_old_files (rmFail : Nat → Bool) (now : Int) (s : SchedState) : SchedState :=
  match cleanupLoop rmFail now s.tasks s [] with
  | (s1, toRemove, true) =>
      { s1 with tasks := toRemove.foldl (fun ts id => removeTask ts id) s1.tasks }
  | (s1, _, false) => s1

/-- The JSON body of `GET /api/status/{task_id}` (src/main.py lines 346-374). -/
structure StatusResponse where
  status : Status
  progress : Nat
  queue_position : Option Nat
  video_info : Option VideoInfo
  error : Option String
deriving DecidableEq

/-- Function `get_task_status` (src/main.py lines 346-374): 404 (`none`) for an unknown
id; `queue_position = queue.index(task_id) + 1` exactly when the task's status
is 'queued' and its id is in the queue. -/
def get_task_status (id : Nat) (s : SchedState) : Option StatusResponse :=
  match lookupTask s.tasks id with
  | none => none
  | some t =>
      some
        { status := t.status,
          progress := t.progress,
          queue_position :=
            if t.status = Status.queued ∧ id ∈ s.queue then
              some (listIndex id s.queue + 1)
            else none,
          video_info := if t.status = Status.completed then t.videoInfo else none,
          error := if t.status = Status.error then t.errorMsg else none }

/-- The reported queue position of a task: the `queue_position` field of the
status response, when present. -/
def posOf (s : SchedState) (id : Nat) : Option Nat :=
  Option.bind (get_task_status id s) StatusResponse.queue_position

/-- The events of the system: an HTTP submit, the start of the oldest
scheduled-but-not-started download coroutine (asyncio runs created tasks in
creation order), the completion of a suspended executor call, an HTTP cancel,
and a reaper cycle (with the set of ids whose `rmtree` raises). -/
inductive Event where
  | submit (now : Int) (url : String) (quality : Nat)
  | start
  | finish (now : Int) (id : Nat) (outcome : FetchOutcome)
  | cancel (id : Nat)
  | cleanup (failIds : List Nat) (now : Int)

/-- Small-step semantics: how each event transforms the module state. -/
def step (s : SchedState) : Event → SchedState
  | Event.submit now url quality => (create_download_task now url quality s).2
  | Event.start =>
      match s.pending with
      | [] => s
      | id :: rest => downloadStart { s with pending := rest } id
  | Event.finish now id outcome =>
      if id ∈ s.inflight then
        downloadFinish now id outcome { s with inflight := s.inflight.erase id }
      else s
  | Event.cancel id => (cancel_task id s).2
  | Event.cleanup failIds now => cleanup_old_files (fun x => x ∈ failIds) now s

/-- The state at process start: empty dict, empty queue, nothing processing. -/
def initState : SchedState :=
  { tasks := [], queue := [], processing := none, pending := [], inflight := [],
    dirs := [], nextId := 0, fetchCalls := 0 }

/-- Run a sequence of events from a state. -/
def run (s : SchedState) (es : List Event) : SchedState :=
  es.foldl step s

/-- A state the program can actually be in: reachable from `initState` by some
interleaving of events. -/
def Reachable (s : SchedState) : Prop :=
  ∃ es : List Event, run initState es = s

/-- Number of tasks whose status is 'processing'. -/
def processingCount (s : SchedState) : Nat :=
  s.tasks.countP (fun p => p.2.status == Status.processing)

/-! ### Basic lemmas about the task store and queues -/

theorem lookupTask_updateTask_self (ts : List (Nat × TaskRec)) (id : Nat)
    (f : TaskRec → TaskRec) :
    lookupTask (updateTask ts id f) id = (lookupTask ts id).map f := by
  induction ts with
  | nil => rfl
  | cons p rest ih =>
      obtain ⟨k, t⟩ := p
      by_cases hk : k = id
      · simp [updateTask, lookupTask, hk]
      · simp [updateTask, lookupTask, hk, ih]

theorem lookupTask_updateTask_ne (ts : List (Nat × TaskRec)) (id j : Nat)
    (f : TaskRec → TaskRec) (h : j ≠ id) :
    lookupTask (updateTask ts id f) j = lookupTask ts j := by
  induction ts with
  | nil => rfl
  | cons p rest ih =>
      obtain ⟨k, t⟩ := p
      by_cases hk : k = id
      · subst hk
        have hkj : ¬ k = j := fun hh => h hh.symm
        simp [updateTask, lookupTask, hkj]
      · by_cases hj : k = j
        · subst hj
          simp [updateTask, lookupTask, hk]
        · simp [updateTask, lookupTask, hk, hj, ih]

theorem lookupTask_append (ts : List (Nat × TaskRec)) (k : Nat) (t : TaskRec) (j : Nat) :
    lookupTask (ts ++ [(k, t)]) j =
      match lookupTask ts j with
      | some u => some u
      | none => if k = j then some t else none := by
  induction ts with
  | nil => simp [lookupTask]
  | cons p rest ih =>
      obtain ⟨k', t'⟩ := p
      by_cases hk : k' = j
      · simp [lookupTask, hk]
      · simp [lookupTask, hk, ih]

theorem lookupTask_eq_none_of_lt (ts : List (Nat × TaskRec)) (n j : Nat)
    (hlt : ∀ p ∈ ts, p.1 < n) (hj : n ≤ j) :
    lookupTask ts j = none := by
  induction ts with
  | nil => rfl
  | cons p rest ih =>
      obtain ⟨k, t⟩ := p
      have hk : k < n := hlt (k, t) (by simp)
      have : k ≠ j := by omega
      simp only [lookupTask, this, if_false]
      exact ih (fun q hq => hlt q (by simp [hq]))

theorem lookupTask_removeTask (ts : List (Nat × TaskRec)) (e j : Nat) :
    lookupTask (removeTask ts e) j = if j = e then none else lookupTask ts j := by
  induction ts with
  | nil => simp [removeTask, lookupTask]
  | cons p rest ih =>
      obtain ⟨k, t⟩ := p
      by_cases hke : k = e
      · subst hke
        have h1 : removeTask ((k, t) :: rest) k = removeTask rest k := by
          simp [removeTask, List.filter_cons]
        rw [h1, ih]
        by_cases hj : j = k
        · simp [hj]
        · have : ¬ k = j := fun hh => hj hh.symm
          simp [lookupTask, hj, this]
      · have h1 : removeTask ((k, t) :: rest) e = (k, t) :: removeTask rest e := by
          simp [removeTask, List.filter_cons, hke]
        rw [h1]
        by_cases hkj : k = j
        · subst hkj
          simp [lookupTask, hke]
        · simp [lookupTask, hkj, ih]

theorem lookupTask_foldl_removeTask (rem : List Nat) (ts : List (Nat × TaskRec)) (j : Nat) :
    lookupTask (rem.foldl (fun acc id => removeTask acc id) ts) j =
      if j ∈ rem then none else lookupTask ts j := by
  induction rem generalizing ts with
  | nil => simp
  | cons e rest ih =>
      simp only [List.foldl_cons, ih, lookupTask_removeTask]
      by_cases hj : j = e
      · simp [hj]
      · by_cases hr : j ∈ rest <;> simp [hj, hr]

theorem mem_updateTask (ts : List (Nat × TaskRec)) (id : Nat) (f : TaskRec → TaskRec)
    (p : Nat × TaskRec) (hp : p ∈ updateTask ts id f) :
    ∃ q ∈ ts, p.1 = q.1 := by
  induction ts with
  | nil => simp [updateTask] at hp
  | cons q rest ih =>
      obtain ⟨k, t⟩ := q
      by_cases hk : k = id
      · subst hk
        simp only [updateTask, if_pos rfl] at hp
        rcases List.mem_cons.mp hp with h | h
        · exact ⟨(k, t), by simp, by simp [h]⟩
        · exact ⟨p, by simp [h], rfl⟩
      · simp only [updateTask, hk, if_false] at hp
        rcases List.mem_cons.mp hp with h | h
        · exact ⟨(k, t), by simp, by simp [h]⟩
        · obtain ⟨q', hq', he⟩ := ih h
          exact ⟨q', by simp [hq'], he⟩

theorem listIndex_cons_ne (a b : Nat) (l : List Nat) (h : b ≠ a) :
    listIndex a (b :: l) = listIndex a l + 1 := by
  simp [listIndex, h]

theorem listIndex_erase_lt (a b : Nat) (l : List Nat) (hb : b ∈ l)
    (hlt : listIndex b l < listIndex a l) :
    listIndex a (l.erase b) = listIndex a l - 1 := by
  induction l with
  | nil => cases hb
  | cons c rest ih =>
      by_cases hcb : c = b
      · subst hcb
        rw [List.erase_cons_head]
        have hca : c ≠ a := by
          intro h
          rw [h] at hlt
          simp [listIndex] at hlt
        rw [listIndex_cons_ne a c rest hca]
        omega
      · rw [List.erase_cons_tail (by simp [hcb])]
        have hca : c ≠ a := by
          intro h
          rw [h] at hlt
          have h2 : listIndex a (a :: rest) = 0 := by simp [listIndex]
          rw [h2] at hlt
          omega
        have hbrest : b ∈ rest := by
          rcases List.mem_cons.mp hb with h | h
          · exact absurd h.symm hcb
          · exact h
        rw [listIndex_cons_ne a c (rest.erase b) hca, listIndex_cons_ne a c rest hca]
        rw [listIndex_cons_ne b c rest hcb, listIndex_cons_ne a c rest hca] at hlt
        have hlt' : listIndex b rest < listIndex a rest := by omega
        rw [ih hbrest hlt']
        omega

/-! ### Field lemmas for `process_next_in_queue` -/

theorem advance_tasks (s : SchedState) : (process_next_in_queue s).tasks = s.tasks := by
  unfold process_next_in_queue
  split
  · match hq : s.queue with
    | [] => rfl
    | next :: rest =>
        dsimp only
        match lookupTask s.tasks next with
        | some t =>
            dsimp only
            split <;> rfl
        | none => rfl
  · rfl

theorem advance_processing (s : SchedState) :
    (process_next_in_queue s).processing = s.processing := by
  unfold process_next_in_queue
  split
  · match hq : s.queue with
    | [] => rfl
    | next :: rest =>
        dsimp only
        match lookupTask s.tasks next with
        | some t =>
            dsimp only
            split <;> rfl
        | none => rfl
  · rfl

theorem advance_inflight (s : SchedState) :
    (process_next_in_queue s).inflight = s.inflight := by
  unfold process_next_in_queue
  split
  · match hq : s.queue with
    | [] => rfl
    | next :: rest =>
        dsimp only
        match lookupTask s.tasks next with
        | some t =>
            dsimp only
            split <;> rfl
        | none => rfl
  · rfl

theorem advance_fetchCalls (s : SchedState) :
    (process_next_in_queue s).fetchCalls = s.fetchCalls := by
  unfold process_next_in_queue
  split
  · match hq : s.queue with
    | [] => rfl
    | next :: rest =>
        dsimp only
        match lookupTask s.tasks next with
        | some t =>
            dsimp only
            split <;> rfl
        | none => rfl
  · rfl

theorem advance_dirs (s : SchedState) : (process_next_in_queue s).dirs = s.dirs := by
  unfold process_next_in_queue
  split
  · match hq : s.queue with
    | [] => rfl
    | next :: rest =>
        dsimp only
        match lookupTask s.tasks next with
        | some t =>
            dsimp only
            split <;> rfl
        | none => rfl
  · rfl

theorem advance_nextId (s : SchedState) : (process_next_in_queue s).nextId = s.nextId := by
  unfold process_next_in_queue
  split
  · match hq : s.queue with
    | [] => rfl
    | next :: rest =>
        dsimp only
        match lookupTask s.tasks next with
        | some t =>
            dsimp only
            split <;> rfl
        | none => rfl
  · rfl

/-! ### Equational characterisations of the scheduler operations -/

theorem advance_eq_busy (s : SchedState) (hp : s.processing ≠ none) :
    process_next_in_queue s = s := by
  simp [process_next_in_queue, hp]

theorem advance_eq_nil (s : SchedState) (hp : s.processing = none) (hq : s.queue = []) :
    process_next_in_queue s = s := by
  simp [process_next_in_queue, hp, hq]

theorem advance_eq_fresh (s : SchedState) (next : Nat) (rest : List Nat) (t : TaskRec)
    (hp : s.processing = none) (hq : s.queue = next :: rest)
    (hl : lookupTask s.tasks next = some t) (hs : t.status = Status.queued) :
    process_next_in_queue s = { s with queue := rest, pending := s.pending ++ [next] } := by
  simp [process_next_in_queue, hp, hq, hl, hs]

theorem advance_eq_stale (s : SchedState) (next : Nat) (rest : List Nat) (t : TaskRec)
    (hp : s.processing = none) (hq : s.queue = next :: rest)
    (hl : lookupTask s.tasks next = some t) (hs : t.status ≠ Status.queued) :
    process_next_in_queue s = { s with queue := rest } := by
  simp [process_next_in_queue, hp, hq, hl, hs]

theorem advance_eq_gone (s : SchedState) (next : Nat) (rest : List Nat)
    (hp : s.processing = none) (hq : s.queue = next :: rest)
    (hl : lookupTask s.tasks next = none) :
    process_next_in_queue s = { s with queue := rest } := by
  simp [process_next_in_queue, hp, hq, hl]

/-- The record created by `create_download_task` (src/main.py lines 319-326). -/
def newTask (now : Int) (url : String) (quality : Nat) : TaskRec :=
  { url := url, quality := quality, status := Status.queued, progress := 0,
    createdAt := now, completedAt := none, errorMsg := none,
    videoInfo := none, filePath := none }

/-- The state after the store insertion and queue append of
`create_download_task`, before the conditional `process_next_in_queue()`. -/
def submitState (now : Int) (url : String) (quality : Nat) (s : SchedState) : SchedState :=
  { s with tasks := s.tasks ++ [(s.nextId, newTask now url quality)],
           queue := s.queue ++ [s.nextId],
           nextId := s.nextId + 1 }

theorem submit_eq_full (now : Int) (url : String) (quality : Nat) (s : SchedState)
    (h : MAX_QUEUE_SIZE ≤ s.queue.length) :
    create_download_task now url quality s = (SubmitResult.queueFull, s) := by
  simp [create_download_task, h]

theorem submit_eq_ok (now : Int) (url : String) (quality : Nat) (s : SchedState)
    (h : s.queue.length < MAX_QUEUE_SIZE) :
    create_download_task now url quality s =
      (SubmitResult.created s.nextId (s.queue.length + 1),
        if s.processing = none then
          process_next_in_queue (submitState now url quality s)
        else submitState now url quality s) := by
  have h' : ¬ MAX_QUEUE_SIZE ≤ s.queue.length := Nat.not_le.mpr h
  simp [create_download_task, h', submitState, newTask]

/-! ### The reachable-state invariant

The state invariant maintained by every event.  `pending`, `inflight` and the
queue are pairwise disjoint duplicate-free lists of ids below the fresh-id
counter; a scheduled-but-not-started coroutine's task is still 'queued'; a
suspended coroutine's task is 'processing'; and `completed_at` is set exactly
on the tasks whose status is 'completed' (in particular, tasks that ended in
'error' never carry it). -/
structure SchedInv (s : SchedState) : Prop where
  queueLt : ∀ id ∈ s.queue, id < s.nextId
  pendingLt : ∀ id ∈ s.pending, id < s.nextId
  inflightLt : ∀ id ∈ s.inflight, id < s.nextId
  keysLt : ∀ p ∈ s.tasks, p.1 < s.nextId
  queueNodup : s.queue.Nodup
  pendingNodup : s.pending.Nodup
  inflightNodup : s.inflight.Nodup
  pendingQueue : ∀ id ∈ s.pending, id ∉ s.queue
  inflightQueue : ∀ id ∈ s.inflight, id ∉ s.queue
  pendingInflight : ∀ id ∈ s.pending, id ∉ s.inflight
  pendingQueued : ∀ id ∈ s.pending, ∀ t, lookupTask s.tasks id = some t →
    t.status = Status.queued
  inflightProc : ∀ id ∈ s.inflight, ∀ t, lookupTask s.tasks id = some t →
    t.status = Status.processing
  completedIff : ∀ id t, lookupTask s.tasks id = some t →
    (t.completedAt ≠ none ↔ t.status = Status.completed)

theorem inv_of_fields_eq {s' s : SchedState} (ht : s'.tasks = s.tasks)
    (hq : s'.queue = s.queue) (hpe : s'.pending = s.pending)
    (hif : s'.inflight = s.inflight) (hn : s'.nextId = s.nextId)
    (h : SchedInv s) : SchedInv s' := by
  obtain ⟨t1, q1, pr1, pe1, if1, d1, n1, f1⟩ := s'
  dsimp only at ht hq hpe hif hn
  subst ht hq hpe hif hn
  exact
    { queueLt := h.queueLt, pendingLt := h.pendingLt, inflightLt := h.inflightLt,
      keysLt := h.keysLt, queueNodup := h.queueNodup,
      pendingNodup := h.pendingNodup, inflightNodup := h.inflightNodup,
      pendingQueue := h.pendingQueue, inflightQueue := h.inflightQueue,
      pendingInflight := h.pendingInflight, pendingQueued := h.pendingQueued,
      inflightProc := h.inflightProc, completedIff := h.completedIff }

theorem inv_advance {s : SchedState} (h : SchedInv s) : SchedInv (process_next_in_queue s) := by
  by_cases hp : s.processing = none
  · cases hq : s.queue with
    | nil => rw [advance_eq_nil s hp hq]; exact h
    | cons next rest =>
        have hnext_mem : next ∈ s.queue := by rw [hq]; exact List.mem_cons_self next rest
        have hnl : next < s.nextId := h.queueLt next hnext_mem
        have hnodup := h.queueNodup
        rw [hq, List.nodup_cons] at hnodup
        have hrest_sub : ∀ id ∈ rest, id ∈ s.queue := by
          intro id hid; rw [hq]; exact List.mem_cons_of_mem next hid
        cases hl : lookupTask s.tasks next with
        | none =>
            rw [advance_eq_gone s next rest hp hq hl]
            exact
              { queueLt := fun id hid => h.queueLt id (hrest_sub id hid),
                pendingLt := h.pendingLt, inflightLt := h.inflightLt,
                keysLt := h.keysLt,
                queueNodup := hnodup.2,
                pendingNodup := h.pendingNodup, inflightNodup := h.inflightNodup,
                pendingQueue := fun id hid hmem =>
                  h.pendingQueue id hid (hrest_sub id hmem),
                inflightQueue := fun id hid hmem =>
                  h.inflightQueue id hid (hrest_sub id hmem),
                pendingInflight := h.pendingInflight,
                pendingQueued := h.pendingQueued,
                inflightProc := h.inflightProc,
                completedIff := h.completedIff }
        | some t =>
            by_cases hs : t.status = Status.queued
            · rw [advance_eq_fresh s next rest t hp hq hl hs]
              have hnext_pending : next ∉ s.pending := fun hmem =>
                h.pendingQueue next hmem hnext_mem
              have hnext_inflight : next ∉ s.inflight := fun hmem =>
                h.inflightQueue next hmem hnext_mem
              exact
                { queueLt := fun id hid => h.queueLt id (hrest_sub id hid),
                  pendingLt := fun id hid => by
                    rcases List.mem_append.mp hid with hid | hid
                    · exact h.pendingLt id hid
                    · rw [List.mem_singleton.mp hid]; exact hnl,
                  inflightLt := h.inflightLt,
                  keysLt := h.keysLt,
                  queueNodup := hnodup.2,
                  pendingNodup := by
                    rw [List.nodup_append]
                    exact ⟨h.pendingNodup, List.nodup_singleton next,
                      fun a ha hb => by
                        rw [List.mem_singleton.mp hb] at ha
                        exact hnext_pending ha⟩,
                  inflightNodup := h.inflightNodup,
                  pendingQueue := fun id hid hmem => by
                    rcases List.mem_append.mp hid with hid | hid
                    · exact h.pendingQueue id hid (hrest_sub id hmem)
                    · rw [List.mem_singleton.mp hid] at hmem
                      exact hnodup.1 hmem,
                  inflightQueue := fun id hid hmem =>
                    h.inflightQueue id hid (hrest_sub id hmem),
                  pendingInflight := fun id hid => by
                    rcases List.mem_append.mp hid with hid | hid
                    · exact h.pendingInflight id hid
                    · rw [List.mem_singleton.mp hid]; exact hnext_inflight,
                  pendingQueued := fun id hid t' hl' => by
                    rcases List.mem_append.mp hid with hid | hid
                    · exact h.pendingQueued id hid t' hl'
                    · rw [List.mem_singleton.mp hid] at hl'
                      rw [hl] at hl'
                      cases hl'
                      exact hs,
                  inflightProc := h.inflightProc,
                  completedIff := h.completedIff }
            · rw [advance_eq_stale s next rest t hp hq hl hs]
              exact
                { queueLt := fun id hid => h.queueLt id (hrest_sub id hid),
                  pendingLt := h.pendingLt, inflightLt := h.inflightLt,
                  keysLt := h.keysLt,
                  queueNodup := hnodup.2,
                  pendingNodup := h.pendingNodup, inflightNodup := h.inflightNodup,
                  pendingQueue := fun id hid hmem =>
                    h.pendingQueue id hid (hrest_sub id hmem),
                  inflightQueue := fun id hid hmem =>
                    h.inflightQueue id hid (hrest_sub id hmem),
                  pendingInflight := h.pendingInflight,
                  pendingQueued := h.pendingQueued,
                  inflightProc := h.inflightProc,
                  completedIff := h.completedIff }
  · rw [advance_eq_busy s hp]; exact h

theorem downloadStart_eq_gone (s : SchedState) (id : Nat)
    (hl : lookupTask s.tasks id = none) :
    downloadStart s id = process_next_in_queue { s with processing := none } := by
  simp [downloadStart, hl]

theorem downloadStart_eq_unknown (s : SchedState) (id : Nat) (t : TaskRec)
    (hl : lookupTask s.tasks id = some t)
    (hu : detect_platform t.url = Platform.unknown) :
    downloadStart s id =
      process_next_in_queue
        { s with
            tasks := updateTask
              (updateTask s.tasks id
                (fun u => { u with status := Status.processing, progress := 10 })) id
              (fun u => { u with status := Status.error,
                                 errorMsg := some unsupportedMsg }),
            processing := none } := by
  simp [downloadStart, hl, hu]

theorem downloadStart_eq_known (s : SchedState) (id : Nat) (t : TaskRec)
    (hl : lookupTask s.tasks id = some t)
    (hu : detect_platform t.url ≠ Platform.unknown) :
    downloadStart s id =
      { s with
          tasks := updateTask
            (updateTask s.tasks id
              (fun u => { u with status := Status.processing, progress := 10 })) id
            (fun u => { u with progress := 30 }),
          processing := some id,
          dirs := if id ∈ s.dirs then s.dirs else s.dirs ++ [id],
          inflight := s.inflight ++ [id],
          fetchCalls := s.fetchCalls + 1 } := by
  simp [downloadStart, hl, hu]

theorem downloadFinish_eq_gone (now : Int) (id : Nat) (outcome : FetchOutcome)
    (s : SchedState) (hl : lookupTask s.tasks id = none) :
    downloadFinish now id outcome s =
      process_next_in_queue { s with processing := none } := by
  simp [downloadFinish, hl]

theorem downloadFinish_eq_some (now : Int) (id : Nat) (outcome : FetchOutcome)
    (s : SchedState) (t : TaskRec) (hl : lookupTask s.tasks id = some t) :
    downloadFinish now id outcome s =
      process_next_in_queue
        { s with tasks := updateTask s.tasks id (finishUpdate now id outcome),
                 processing := none } := by
  simp [downloadFinish, hl]

theorem cancel_eq_gone (id : Nat) (s : SchedState)
    (hl : lookupTask s.tasks id = none) :
    cancel_task id s = (CancelResult.notFound, s) := by
  simp [cancel_task, hl]

theorem cancel_eq_some (id : Nat) (s : SchedState) (t : TaskRec)
    (hl : lookupTask s.tasks id = some t) :
    cancel_task id s =
      (CancelResult.ok,
        { s with queue := if id ∈ s.queue then s.queue.erase id else s.queue,
                 dirs := s.dirs.filter (fun x => x != id),
                 tasks := removeTask s.tasks id }) := by
  simp [cancel_task, hl]

/-! ### Preservation of the invariant -/

theorem inv_set_processing {s : SchedState} (h : SchedInv s) (pr : Option Nat) :
    SchedInv { s with processing := pr } :=
  { queueLt := h.queueLt, pendingLt := h.pendingLt, inflightLt := h.inflightLt,
    keysLt := h.keysLt, queueNodup := h.queueNodup,
    pendingNodup := h.pendingNodup, inflightNodup := h.inflightNodup,
    pendingQueue := h.pendingQueue, inflightQueue := h.inflightQueue,
    pendingInflight := h.pendingInflight, pendingQueued := h.pendingQueued,
    inflightProc := h.inflightProc, completedIff := h.completedIff }

theorem inv_drop_pending_head {s : SchedState} (h : SchedInv s) (id : Nat)
    (rest : List Nat) (hpend : s.pending = id :: rest) :
    SchedInv { s with pending := rest } := by
  have hsub : ∀ j ∈ rest, j ∈ s.pending := by
    intro j hj; rw [hpend]; exact List.mem_cons_of_mem id hj
  exact
    { queueLt := h.queueLt,
      pendingLt := fun j hj => h.pendingLt j (hsub j hj),
      inflightLt := h.inflightLt, keysLt := h.keysLt,
      queueNodup := h.queueNodup,
      pendingNodup := by
        have := h.pendingNodup
        rw [hpend, List.nodup_cons] at this
        exact this.2,
      inflightNodup := h.inflightNodup,
      pendingQueue := fun j hj => h.pendingQueue j (hsub j hj),
      inflightQueue := h.inflightQueue,
      pendingInflight := fun j hj => h.pendingInflight j (hsub j hj),
      pendingQueued := fun j hj => h.pendingQueued j (hsub j hj),
      inflightProc := h.inflightProc,
      completedIff := h.completedIff }

theorem inv_update_nonmember {s : SchedState} (h : SchedInv s) (id : Nat)
    (f : TaskRec → TaskRec)
    (hpend : id ∉ s.pending) (hinf : id ∉ s.inflight)
    (hiff : ∀ t, lookupTask s.tasks id = some t →
      ((f t).completedAt ≠ none ↔ (f t).status = Status.completed)) :
    SchedInv { s with tasks := updateTask s.tasks id f } :=
  { queueLt := h.queueLt, pendingLt := h.pendingLt, inflightLt := h.inflightLt,
    keysLt := fun p hp => by
      obtain ⟨q, hq, he⟩ := mem_updateTask s.tasks id f p hp
      rw [he]; exact h.keysLt q hq,
    queueNodup := h.queueNodup, pendingNodup := h.pendingNodup,
    inflightNodup := h.inflightNodup,
    pendingQueue := h.pendingQueue, inflightQueue := h.inflightQueue,
    pendingInflight := h.pendingInflight,
    pendingQueued := fun j hj t hl => by
      have hji : j ≠ id := fun he => hpend (he ▸ hj)
      rw [lookupTask_updateTask_ne s.tasks id j f hji] at hl
      exact h.pendingQueued j hj t hl,
    inflightProc := fun j hj t hl => by
      have hji : j ≠ id := fun he => hinf (he ▸ hj)
      rw [lookupTask_updateTask_ne s.tasks id j f hji] at hl
      exact h.inflightProc j hj t hl,
    completedIff := fun j t hl => by
      by_cases hji : j = id
      · subst hji
        rw [lookupTask_updateTask_self] at hl
        cases ho : lookupTask s.tasks j with
        | none => rw [ho] at hl; cases hl
        | some u =>
            rw [ho] at hl
            cases hl
            exact hiff u ho
      · rw [lookupTask_updateTask_ne s.tasks id j f hji] at hl
        exact h.completedIff j t hl }

theorem completedAt_none_of_not_completed {s : SchedState} (h : SchedInv s)
    (id : Nat) (t : TaskRec) (hl : lookupTask s.tasks id = some t)
    (hs : t.status ≠ Status.completed) : t.completedAt = none := by
  by_contra hne
  exact hs ((h.completedIff id t hl).mp hne)

theorem inv_submitState (now : Int) (url : String) (quality : Nat)
    {s : SchedState} (h : SchedInv s) : SchedInv (submitState now url quality s) := by
  have hfresh_queue : s.nextId ∉ s.queue := fun hmem =>
    Nat.lt_irrefl s.nextId (h.queueLt s.nextId hmem)
  have hfresh_pending : s.nextId ∉ s.pending := fun hmem =>
    Nat.lt_irrefl s.nextId (h.pendingLt s.nextId hmem)
  have hfresh_inflight : s.nextId ∉ s.inflight := fun hmem =>
    Nat.lt_irrefl s.nextId (h.inflightLt s.nextId hmem)
  refine
    { queueLt := ?_, pendingLt := ?_, inflightLt := ?_, keysLt := ?_,
      queueNodup := ?_, pendingNodup := h.pendingNodup,
      inflightNodup := h.inflightNodup,
      pendingQueue := ?_, inflightQueue := ?_,
      pendingInflight := h.pendingInflight,
      pendingQueued := ?_, inflightProc := ?_, completedIff := ?_ }
  · intro id hid
    rcases List.mem_append.mp hid with hid | hid
    · exact Nat.lt_succ_of_lt (h.queueLt id hid)
    · rw [List.mem_singleton.mp hid]; exact Nat.lt_succ_self _
  · intro id hid; exact Nat.lt_succ_of_lt (h.pendingLt id hid)
  · intro id hid; exact Nat.lt_succ_of_lt (h.inflightLt id hid)
  · intro p hp
    rcases List.mem_append.mp hp with hp | hp
    · exact Nat.lt_succ_of_lt (h.keysLt p hp)
    · rw [List.mem_singleton.mp hp]; exact Nat.lt_succ_self _
  · dsimp only [submitState]
    rw [List.nodup_append]
    exact ⟨h.queueNodup, List.nodup_singleton _,
      fun a ha hb => by rw [List.mem_singleton.mp hb] at ha; exact hfresh_queue ha⟩
  · intro id hid hmem
    rcases List.mem_append.mp hmem with hmem | hmem
    · exact h.pendingQueue id hid hmem
    · rw [List.mem_singleton.mp hmem] at hid; exact hfresh_pending hid
  · intro id hid hmem
    rcases List.mem_append.mp hmem with hmem | hmem
    · exact h.inflightQueue id hid hmem
    · rw [List.mem_singleton.mp hmem] at hid; exact hfresh_inflight hid
  · intro id hid t hl
    dsimp only [submitState] at hl hid
    rw [lookupTask_append] at hl
    cases ho : lookupTask s.tasks id with
    | some u => rw [ho] at hl; cases hl; exact h.pendingQueued id hid _ ho
    | none =>
        rw [ho] at hl
        by_cases he : s.nextId = id
        · rw [if_pos he] at hl; cases hl; rfl
        · rw [if_neg he] at hl; cases hl
  · intro id hid t hl
    dsimp only [submitState] at hl hid
    rw [lookupTask_append] at hl
    cases ho : lookupTask s.tasks id with
    | some u => rw [ho] at hl; cases hl; exact h.inflightProc id hid _ ho
    | none =>
        rw [ho] at hl
        by_cases he : s.nextId = id
        · rw [he] at hfresh_inflight; exact absurd hid hfresh_inflight
        · rw [if_neg he] at hl; cases hl
  · intro id t hl
    dsimp only [submitState] at hl
    rw [lookupTask_append] at hl
    cases ho : lookupTask s.tasks id with
    | some u => rw [ho] at hl; cases hl; exact h.completedIff id _ ho
    | none =>
        rw [ho] at hl
        by_cases he : s.nextId = id
        · rw [if_pos he] at hl
          cases hl
          simp [newTask]
        · rw [if_neg he] at hl; cases hl

theorem inv_submit (now : Int) (url : String) (quality : Nat) {s : SchedState}
    (h : SchedInv s) : SchedInv (create_download_task now url quality s).2 := by
  by_cases hfull : MAX_QUEUE_SIZE ≤ s.queue.length
  · rw [submit_eq_full now url quality s hfull]; exact h
  · rw [submit_eq_ok now url quality s (Nat.lt_of_not_le hfull)]
    dsimp only
    by_cases hp : s.processing = none
    · rw [if_pos hp]
      exact inv_advance (inv_submitState now url quality h)
    · rw [if_neg hp]
      exact inv_submitState now url quality h

theorem inv_push_inflight {s : SchedState} (h : SchedInv s) (id : Nat)
    (hlt : id < s.nextId) (hq : id ∉ s.queue) (hpend : id ∉ s.pending)
    (hinf : id ∉ s.inflight)
    (hproc : ∀ t, lookupTask s.tasks id = some t → t.status = Status.processing)
    (pr : Option Nat) (d : List Nat) (fc : Nat) :
    SchedInv { s with inflight := s.inflight ++ [id], processing := pr,
                      dirs := d, fetchCalls := fc } :=
  { queueLt := h.queueLt, pendingLt := h.pendingLt,
    inflightLt := fun j hj => by
      rcases List.mem_append.mp hj with hj | hj
      · exact h.inflightLt j hj
      · rw [List.mem_singleton.mp hj]; exact hlt,
    keysLt := h.keysLt, queueNodup := h.queueNodup,
    pendingNodup := h.pendingNodup,
    inflightNodup := by
      rw [List.nodup_append]
      exact ⟨h.inflightNodup, List.nodup_singleton _,
        fun a ha hb => by rw [List.mem_singleton.mp hb] at ha; exact hinf ha⟩,
    pendingQueue := h.pendingQueue,
    inflightQueue := fun j hj => by
      rcases List.mem_append.mp hj with hj | hj
      · exact h.inflightQueue j hj
      · rw [List.mem_singleton.mp hj]; exact hq,
    pendingInflight := fun j hj hmem => by
      rcases List.mem_append.mp hmem with hmem | hmem
      · exact h.pendingInflight j hj hmem
      · rw [List.mem_singleton.mp hmem] at hj; exact hpend hj,
    pendingQueued := h.pendingQueued,
    inflightProc := fun j hj t hl => by
      rcases List.mem_append.mp hj with hj | hj
      · exact h.inflightProc j hj t hl
      · have hji : j = id := List.mem_singleton.mp hj
        subst hji
        exact hproc t hl,
    completedIff := h.completedIff }

theorem inv_start {s : SchedState} (h : SchedInv s) : SchedInv (step s Event.start) := by
  cases hpend : s.pending with
  | nil => simpa [step, hpend] using h
  | cons id rest =>
      have hid_mem : id ∈ s.pending := by rw [hpend]; exact List.mem_cons_self id rest
      have hQ : id ∉ s.queue := h.pendingQueue id hid_mem
      have hI : id ∉ s.inflight := h.pendingInflight id hid_mem
      have hLt : id < s.nextId := h.pendingLt id hid_mem
      have hRest : id ∉ rest := by
        have hd := h.pendingNodup
        rw [hpend, List.nodup_cons] at hd
        exact hd.1
      have h0 : SchedInv { s with pending := rest } :=
        inv_drop_pending_head h id rest hpend
      have hstep : step s Event.start = downloadStart { s with pending := rest } id := by
        simp [step, hpend]
      rw [hstep]
      cases hl : lookupTask s.tasks id with
      | none =>
          rw [downloadStart_eq_gone { s with pending := rest } id hl]
          exact inv_advance (inv_set_processing h0 none)
      | some t =>
          have hqueued : t.status = Status.queued := h.pendingQueued id hid_mem t hl
          have hcan : t.completedAt = none :=
            completedAt_none_of_not_completed h id t hl (by simp [hqueued])
          have h1 : SchedInv
              { s with pending := rest,
                       tasks := updateTask s.tasks id
                         (fun u => { u with status := Status.processing, progress := 10 }) } :=
            inv_update_nonmember h0 id _ hRest hI
              (fun t' hl' => by rw [hl] at hl'; cases hl'; simp [hcan])
          by_cases hu : detect_platform t.url = Platform.unknown
          · rw [downloadStart_eq_unknown { s with pending := rest } id t hl hu]
            have h2 : SchedInv
                { s with pending := rest,
                         tasks := updateTask
                           (updateTask s.tasks id
                             (fun u => { u with status := Status.processing,
                                                progress := 10 })) id
                           (fun u => { u with status := Status.error,
                                              errorMsg := some unsupportedMsg }) } :=
              inv_update_nonmember h1 id _ hRest hI
                (fun t' hl' => by
                  rw [lookupTask_updateTask_self, hl] at hl'
                  cases hl'
                  simp [hcan])
            exact inv_advance (inv_set_processing h2 none)
          · rw [downloadStart_eq_known { s with pending := rest } id t hl hu]
            have h2 : SchedInv
                { s with pending := rest,
                         tasks := updateTask
                           (updateTask s.tasks id
                             (fun u => { u with status := Status.processing,
                                                progress := 10 })) id
                           (fun u => { u with progress := 30 }) } :=
              inv_update_nonmember h1 id _ hRest hI
                (fun t' hl' => by
                  rw [lookupTask_updateTask_self, hl] at hl'
                  cases hl'
                  simp [hcan])
            exact inv_push_inflight h2 id hLt hQ hRest hI
              (fun t' hl' => by
                rw [lookupTask_updateTask_self, lookupTask_updateTask_self, hl] at hl'
                cases hl'
                rfl)
              (some id) _ _

theorem inv_erase_inflight {s : SchedState} (h : SchedInv s) (id : Nat) :
    SchedInv { s with inflight := s.inflight.erase id } :=
  { queueLt := h.queueLt, pendingLt := h.pendingLt,
    inflightLt := fun j hj => h.inflightLt j (List.mem_of_mem_erase hj),
    keysLt := h.keysLt, queueNodup := h.queueNodup,
    pendingNodup := h.pendingNodup,
    inflightNodup := h.inflightNodup.erase id,
    pendingQueue := h.pendingQueue,
    inflightQueue := fun j hj => h.inflightQueue j (List.mem_of_mem_erase hj),
    pendingInflight := fun j hj hmem =>
      h.pendingInflight j hj (List.mem_of_mem_erase hmem),
    pendingQueued := h.pendingQueued,
    inflightProc := fun j hj => h.inflightProc j (List.mem_of_mem_erase hj),
    completedIff := h.completedIff }

theorem inv_finish (now : Int) (id : Nat) (outcome : FetchOutcome) {s : SchedState}
    (h : SchedInv s) : SchedInv (step s (Event.finish now id outcome)) := by
  by_cases hmem : id ∈ s.inflight
  · have hstep : step s (Event.finish now id outcome) =
        downloadFinish now id outcome { s with inflight := s.inflight.erase id } := by
      simp [step, hmem]
    rw [hstep]
    have h0 : SchedInv { s with inflight := s.inflight.erase id } :=
      inv_erase_inflight h id
    cases hl : lookupTask s.tasks id with
    | none =>
        rw [downloadFinish_eq_gone now id outcome
          { s with inflight := s.inflight.erase id } hl]
        exact inv_advance (inv_set_processing h0 none)
    | some t =>
        have hproc : t.status = Status.processing := h.inflightProc id hmem t hl
        have hcan : t.completedAt = none :=
          completedAt_none_of_not_completed h id t hl (by simp [hproc])
        rw [downloadFinish_eq_some now id outcome
          { s with inflight := s.inflight.erase id } t hl]
        have hIp : id ∉ s.pending := fun hp => h.pendingInflight id hp hmem
        have hIi : id ∉ s.inflight.erase id := h.inflightNodup.not_mem_erase
        have h1 : SchedInv
            { s with inflight := s.inflight.erase id,
                     tasks := updateTask s.tasks id (finishUpdate now id outcome) } :=
          inv_update_nonmember h0 id _ hIp hIi
            (fun t' hl' => by
              rw [hl] at hl'
              cases hl'
              cases outcome with
              | failure msg => simp [finishUpdate, hcan]
              | success title duration fileSize =>
                  cases fileSize <;> simp [finishUpdate])
        exact inv_advance (inv_set_processing h1 none)
  · simpa [step, hmem] using h

theorem inv_cancel (id : Nat) {s : SchedState} (h : SchedInv s) :
    SchedInv (cancel_task id s).2 := by
  cases hl : lookupTask s.tasks id with
  | none => rw [cancel_eq_gone id s hl]; exact h
  | some t =>
      rw [cancel_eq_some id s t hl]
      have hQsub : ∀ j, j ∈ (if id ∈ s.queue then s.queue.erase id else s.queue) →
          j ∈ s.queue := by
        intro j hj
        split at hj
        · exact List.mem_of_mem_erase hj
        · exact hj
      exact
        { queueLt := fun j hj => h.queueLt j (hQsub j hj),
          pendingLt := h.pendingLt, inflightLt := h.inflightLt,
          keysLt := fun p hp => h.keysLt p (List.mem_of_mem_filter hp),
          queueNodup := by
            split
            · exact h.queueNodup.erase id
            · exact h.queueNodup,
          pendingNodup := h.pendingNodup, inflightNodup := h.inflightNodup,
          pendingQueue := fun j hj hmem => h.pendingQueue j hj (hQsub j hmem),
          inflightQueue := fun j hj hmem => h.inflightQueue j hj (hQsub j hmem),
          pendingInflight := h.pendingInflight,
          pendingQueued := fun j hj t' hl' => by
            rw [lookupTask_removeTask] at hl'
            by_cases hji : j = id
            · rw [if_pos hji] at hl'; cases hl'
            · rw [if_neg hji] at hl'; exact h.pendingQueued j hj t' hl',
          inflightProc := fun j hj t' hl' => by
            rw [lookupTask_removeTask] at hl'
            by_cases hji : j = id
            · rw [if_pos hji] at hl'; cases hl'
            · rw [if_neg hji] at hl'; exact h.inflightProc j hj t' hl',
          completedIff := fun j t' hl' => by
            rw [lookupTask_removeTask] at hl'
            by_cases hji : j = id
            · rw [if_pos hji] at hl'; cases hl'
            · rw [if_neg hji] at hl'; exact h.completedIff j t' hl' }

theorem mem_foldl_removeTask (rem : List Nat) (ts : List (Nat × TaskRec))
    (p : Nat × TaskRec) :
    p ∈ rem.foldl (fun acc id => removeTask acc id) ts → p ∈ ts := by
  induction rem generalizing ts with
  | nil => intro hp; simpa using hp
  | cons e rest ih =>
      intro hp
      simp only [List.foldl_cons] at hp
      exact List.mem_of_mem_filter (ih (removeTask ts e) hp)

theorem inv_removeAll (rem : List Nat) {s : SchedState} (h : SchedInv s) :
    SchedInv { s with tasks := rem.foldl (fun acc id => removeTask acc id) s.tasks } :=
  { queueLt := h.queueLt, pendingLt := h.pendingLt, inflightLt := h.inflightLt,
    keysLt := fun p hp => h.keysLt p (mem_foldl_removeTask rem s.tasks p hp),
    queueNodup := h.queueNodup, pendingNodup := h.pendingNodup,
    inflightNodup := h.inflightNodup,
    pendingQueue := h.pendingQueue, inflightQueue := h.inflightQueue,
    pendingInflight := h.pendingInflight,
    pendingQueued := fun j hj t hl => by
      rw [lookupTask_foldl_removeTask] at hl
      by_cases hr : j ∈ rem
      · rw [if_pos hr] at hl; cases hl
      · rw [if_neg hr] at hl; exact h.pendingQueued j hj t hl,
    inflightProc := fun j hj t hl => by
      rw [lookupTask_foldl_removeTask] at hl
      by_cases hr : j ∈ rem
      · rw [if_pos hr] at hl; cases hl
      · rw [if_neg hr] at hl; exact h.inflightProc j hj t hl,
    completedIff := fun j t hl => by
      rw [lookupTask_foldl_removeTask] at hl
      by_cases hr : j ∈ rem
      · rw [if_pos hr] at hl; cases hl
      · rw [if_neg hr] at hl; exact h.completedIff j t hl }

theorem cleanupLoop_fields (rmFail : Nat → Bool) (now : Int)
    (entries : List (Nat × TaskRec)) :
    ∀ (s : SchedState) (acc : List Nat),
    (cleanupLoop rmFail now entries s acc).1.tasks = s.tasks ∧
    (cleanupLoop rmFail now entries s acc).1.queue = s.queue ∧
    (cleanupLoop rmFail now entries s acc).1.pending = s.pending ∧
    (cleanupLoop rmFail now entries s acc).1.inflight = s.inflight ∧
    (cleanupLoop rmFail now entries s acc).1.processing = s.processing ∧
    (cleanupLoop rmFail now entries s acc).1.nextId = s.nextId := by
  induction entries with
  | nil => intro s acc; simp [cleanupLoop]
  | cons p rest ih =>
      intro s acc
      obtain ⟨id, t⟩ := p
      cases hc : t.completedAt with
      | none => simpa [cleanupLoop, hc] using ih s acc
      | some c =>
          simp only [cleanupLoop, hc]
          split
          · split
            · split
              · exact ⟨rfl, rfl, rfl, rfl, rfl, rfl⟩
              · exact ih { s with dirs := s.dirs.erase id } (acc ++ [id])
            · exact ih s (acc ++ [id])
          · exact ih s acc

theorem inv_cleanup (rmFail : Nat → Bool) (now : Int) {s : SchedState}
    (h : SchedInv s) : SchedInv (cleanup_old_files rmFail now s) := by
  rcases hres : cleanupLoop rmFail now s.tasks s [] with ⟨s1, toRemove, flag⟩
  have hf := cleanupLoop_fields rmFail now s.tasks s []
  rw [hres] at hf
  obtain ⟨ht, hq, hpe, hif, hpr, hn⟩ := hf
  cases flag with
  | false =>
      have he : cleanup_old_files rmFail now s = s1 := by
        simp [cleanup_old_files, hres]
      rw [he]
      exact inv_of_fields_eq ht hq hpe hif hn h
  | true =>
      have he : cleanup_old_files rmFail now s =
          { s1 with tasks := toRemove.foldl (fun ts id => removeTask ts id) s1.tasks } := by
        simp [cleanup_old_files, hres]
      rw [he]
      exact inv_of_fields_eq (by dsimp only; rw [ht]) (by dsimp only; exact hq)
        (by dsimp only; exact hpe) (by dsimp only; exact hif) (by dsimp only; exact hn)
        (inv_removeAll toRemove h)

theorem inv_step {s : SchedState} (h : SchedInv s) (e : Event) : SchedInv (step s e) := by
  cases e with
  | submit now url quality => exact inv_submit now url quality h
  | start => exact inv_start h
  | finish now id outcome => exact inv_finish now id outcome h
  | cancel id => exact inv_cancel id h
  | cleanup failIds now => exact inv_cleanup (fun x => x ∈ failIds) now h

theorem inv_init : SchedInv initState :=
  { queueLt := (fun _ hid => nomatch hid),
    pendingLt := (fun _ hid => nomatch hid),
    inflightLt := (fun _ hid => nomatch hid),
    keysLt := (fun _ hp => nomatch hp),
    queueNodup := List.nodup_nil, pendingNodup := List.nodup_nil,
    inflightNodup := List.nodup_nil,
    pendingQueue := (fun _ hid => nomatch hid),
    inflightQueue := (fun _ hid => nomatch hid),
    pendingInflight := (fun _ hid => nomatch hid),
    pendingQueued := (fun _ hid => nomatch hid),
    inflightProc := (fun _ hid => nomatch hid),
    completedIff := (fun _ _ hl => nomatch hl) }

theorem inv_run (es : List Event) : ∀ {s : SchedState}, SchedInv s → SchedInv (run s es) := by
  induction es with
  | nil => intro s h; exact h
  | cons e rest ih => intro s h; exact ih (inv_step h e)

theorem reachable_inv {s : SchedState} (h : Reachable s) : SchedInv s := by
  obtain ⟨es, hes⟩ := h
  rw [← hes]
  exact inv_run es inv_init

/-! ### Claim theorems -/

/-- A supported URL used by the concrete traces below. -/
def yurl : String := "https://youtube.com/a"

/-- The interleaving that breaks mutual exclusion: two HTTP submit handlers
run to completion (each one's `process_next_in_queue` pops the fresh task and
`asyncio.create_task`s its download coroutine without starting it, and each
sees `processing_task_id is None`), and only then do the two created
coroutines begin to run. -/
def c1trace : List Event :=
  [Event.submit 0 yurl 720, Event.submit 0 yurl 720, Event.start, Event.start]

/-- C1: the claimed invariant "the number of tasks whose status is
'processing' is 0 or 1, never more" is violated by the code: because
`asyncio.create_task` only schedules `download_video` and the guard
`processing_task_id is None` is checked before the scheduled coroutine has
run, two Submit calls arriving before either coroutine starts produce a
reachable state with two tasks in status 'processing' (and two concurrent
fetches). -/
theorem c1_two_processing :
    processingCount (run initState c1trace) = 2 ∧
    Reachable (run initState c1trace) :=
  ⟨by decide, ⟨c1trace, rfl⟩⟩

/-- Submit, coroutine start, then the executor call raises: the task ends in
status 'error'. -/
def c2failTrace : List Event :=
  [Event.submit 0 yurl 720, Event.start, Event.finish 5 0 (FetchOutcome.failure "boom")]

/-- C2 counterexample: the fetch step does NOT set `completed_at` on the
transition to 'error' — after a failed fetch the task has status 'error' and
`completed_at = none` (src/main.py lines 198-201 set only `status` and
`error`), refuting "sets completedAt = now ... on the transition to
'error'". -/
theorem c2_error_without_completedAt :
    (lookupTask (run initState c2failTrace).tasks 0).map
      (fun t => (t.status, t.completedAt)) = some (Status.error, none) := by
  decide

/-- C2 (amended): in every reachable state, `completed_at` is set if and only
if the task's status is 'completed'; the transition to 'error' never sets it
(so error tasks are never picked up by the reaper). -/
theorem c2_completedAt_iff_completed (s : SchedState) (hs : Reachable s)
    (id : Nat) (t : TaskRec) (ht : lookupTask s.tasks id = some t) :
    t.completedAt ≠ none ↔ t.status = Status.completed :=
  (reachable_inv hs).completedIff id t ht

/-- Submit, coroutine start, then a successful fetch. -/
def c2okTrace : List Event :=
  [Event.submit 0 yurl 720, Event.start,
   Event.finish 5 0 (FetchOutcome.success "T" 3700 none)]

/-- The task record produced by `c2okTrace`. -/
def c2task : TaskRec :=
  { url := yurl, quality := 720, status := Status.completed, progress := 100,
    createdAt := 0, completedAt := some 5, errorMsg := none,
    videoInfo := some { title := "T", duration := "1:01:40", quality := "720p",
                        size := "Уточняется" },
    filePath := none }

/-- C2 witness: the amended equivalence instantiated at a concrete reachable
state holding a completed task. -/
theorem c2_completedAt_iff_completed_witness :
    c2task.completedAt ≠ none ↔ c2task.status = Status.completed :=
  c2_completedAt_iff_completed (run initState c2okTrace) ⟨c2okTrace, rfl⟩ 0 c2task
    (by decide)

/-- A stale queue head: task 0 is in the queue but its status is no longer
'queued'. -/
def c3staleTask : TaskRec :=
  { url := "https://youtube.com/stale", quality := 720, status := Status.error,
    progress := 30, createdAt := 0, completedAt := none, errorMsg := some "x",
    videoInfo := none, filePath := none }

/-- A live queued task behind the stale head. -/
def c3freshTask : TaskRec :=
  { url := "https://youtube.com/fresh", quality := 720, status := Status.queued,
    progress := 0, createdAt := 0, completedAt := none, errorMsg := none,
    videoInfo := none, filePath := none }

/-- A scheduler state whose queue head is stale (the situation the spec's
defensive check is about). -/
def c3state : SchedState :=
  { tasks := [(0, c3staleTask), (1, c3freshTask)], queue := [0, 1],
    processing := none, pending := [], inflight := [], dirs := [],
    nextId := 2, fetchCalls := 0 }

/-- C3 counterexample: when `process_next_in_queue` pops a stale head it does
NOT retry with the next head — on `c3state` it drops id 0 and returns with
queue `[1]`, no coroutine created (`pending` empty), nothing processing and no
fetch dispatched, so the later queued task 1 is not started by this Advance
call, refuting "retries with the next head". -/
theorem c3_stale_head_no_retry :
    (process_next_in_queue c3state).queue = [1] ∧
    (process_next_in_queue c3state).pending = [] ∧
    (process_next_in_queue c3state).processing = none ∧
    (process_next_in_queue c3state).fetchCalls = 0 ∧
    c3freshTask.status = Status.queued := by
  decide

/-- C3 (amended): Advance pops the head of the Queue in FIFO order; if the
popped task still exists with status 'queued' its download coroutine is
created; if the popped id is stale (missing, or status no longer 'queued')
the id is discarded and NO task is started in that Advance call — there is no
retry with the next head, so the next queued task waits for the next Advance
trigger. -/
theorem c3_advance_pop_characterisation (s : SchedState) (h : Nat)
    (rest : List Nat) (hp : s.processing = none) (hq : s.queue = h :: rest) :
    (process_next_in_queue s).queue = rest ∧
    (process_next_in_queue s).tasks = s.tasks ∧
    (process_next_in_queue s).processing = none ∧
    (∀ t, lookupTask s.tasks h = some t → t.status = Status.queued →
      (process_next_in_queue s).pending = s.pending ++ [h]) ∧
    (∀ t, lookupTask s.tasks h = some t → t.status ≠ Status.queued →
      (process_next_in_queue s).pending = s.pending) ∧
    (lookupTask s.tasks h = none →
      (process_next_in_queue s).pending = s.pending) := by
  refine ⟨?_, advance_tasks s, ?_, ?_, ?_, ?_⟩
  · cases hl : lookupTask s.tasks h with
    | none => rw [advance_eq_gone s h rest hp hq hl]
    | some t =>
        by_cases hs : t.status = Status.queued
        · rw [advance_eq_fresh s h rest t hp hq hl hs]
        · rw [advance_eq_stale s h rest t hp hq hl hs]
  · rw [advance_processing]; exact hp
  · intro t hl hs; rw [advance_eq_fresh s h rest t hp hq hl hs]
  · intro t hl hs; rw [advance_eq_stale s h rest t hp hq hl hs]
  · intro hl; rw [advance_eq_gone s h rest hp hq hl]

/-- C3 witness: the characterisation applied to the concrete stale-head state
(the fresh-head behaviour is exercised through the stale branch's sibling in
other claims). -/
theorem c3_advance_pop_characterisation_witness :
    (process_next_in_queue c3state).queue = [1] ∧
    (process_next_in_queue c3state).pending = c3state.pending :=
  ⟨(c3_advance_pop_characterisation c3state 0 [1] rfl rfl).1,
   (c3_advance_pop_characterisation c3state 0 [1] rfl rfl).2.2.2.2.1 c3staleTask
     rfl (by decide)⟩

/-- C4 counterexample: a successful Submit against the idle initial scheduler
does NOT increase the Queue length by one — the handler's immediate
`process_next_in_queue()` pops the freshly appended id again, so the queue
length stays 0 (the id moves to the created-but-not-started coroutine list),
refuting "...increasing the Queue length by one". -/
theorem c4_submit_idle_queue_not_longer :
    (create_download_task 0 yurl 720 initState).1 = SubmitResult.created 0 1 ∧
    (create_download_task 0 yurl 720 initState).2.queue = [] ∧
    (create_download_task 0 yurl 720 initState).2.queue.length =
      initState.queue.length ∧
    (create_download_task 0 yurl 720 initState).2.pending = [0] := by
  decide

/-- C4 (amended): Submit fails with QueueFull exactly when the queue length is
at or above `MAX_QUEUE_SIZE` (5) at the moment of the call, checked before
enqueuing, and on that failure nothing changes; otherwise a task with status
'queued' and progress 0 is created and its id appended to the Queue, and the
reported position is `len(queue)` after the append — but Submit then
immediately triggers Advance when nothing is processing, so the Queue length
grows by one only in the busy case, while on an idle scheduler with an empty
queue the fresh id is popped again at once and the net queue change is
zero. -/
theorem c4_submit_characterisation (now : Int) (url : String) (quality : Nat)
    (s : SchedState) (hs : Reachable s) :
    (MAX_QUEUE_SIZE ≤ s.queue.length →
      create_download_task now url quality s = (SubmitResult.queueFull, s)) ∧
    (s.queue.length < MAX_QUEUE_SIZE →
      (create_download_task now url quality s).1 =
        SubmitResult.created s.nextId (s.queue.length + 1) ∧
      lookupTask (create_download_task now url quality s).2.tasks s.nextId =
        some (newTask now url quality) ∧
      (s.processing ≠ none →
        (create_download_task now url quality s).2.queue = s.queue ++ [s.nextId]) ∧
      (s.processing = none → s.queue = [] →
        (create_download_task now url quality s).2.queue = [] ∧
        (create_download_task now url quality s).2.pending =
          s.pending ++ [s.nextId])) := by
  constructor
  · intro h; exact submit_eq_full now url quality s h
  · intro h
    rw [submit_eq_ok now url quality s h]
    have hkey : lookupTask s.tasks s.nextId = none :=
      lookupTask_eq_none_of_lt s.tasks s.nextId s.nextId
        (reachable_inv hs).keysLt (le_refl _)
    have hlook1 : lookupTask (submitState now url quality s).tasks s.nextId =
        some (newTask now url quality) := by
      dsimp only [submitState]
      rw [lookupTask_append, hkey]
      simp
    refine ⟨rfl, ?_, ?_, ?_⟩
    · by_cases hp : s.processing = none
      · dsimp only
        rw [if_pos hp, advance_tasks]
        exact hlook1
      · dsimp only
        rw [if_neg hp]
        exact hlook1
    · intro hp
      dsimp only
      rw [if_neg hp]
      rfl
    · intro hp hq
      dsimp only
      rw [if_pos hp]
      have hq1 : (submitState now url quality s).queue = [s.nextId] := by
        dsimp only [submitState]
        rw [hq]
        rfl
      have hadv := advance_eq_fresh (submitState now url quality s) s.nextId []
        (newTask now url quality) hp hq1 hlook1 rfl
      rw [hadv]
      exact ⟨rfl, rfl⟩

/-- A busy reachable scheduler: task 0 is mid-fetch, queue empty. -/
def c4busyTr : List Event := [Event.submit 0 yurl 720, Event.start]

/-- A full reachable scheduler: task 0 mid-fetch, five queued tasks. -/
def c4fullTr : List Event :=
  [Event.submit 0 yurl 720, Event.start, Event.submit 0 yurl 720,
   Event.submit 0 yurl 720, Event.submit 0 yurl 720, Event.submit 0 yurl 720,
   Event.submit 0 yurl 720]

/-- C4 witness: the characterisation instantiated at a full scheduler (the
sixth waiting submission is rejected with no state change) and at a busy
scheduler (acceptance, and queue length +1 because a task is processing). -/
theorem c4_submit_characterisation_witness :
    (create_download_task 9 yurl 720 (run initState c4fullTr) =
      (SubmitResult.queueFull, run initState c4fullTr)) ∧
    ((create_download_task 9 yurl 720 (run initState c4busyTr)).1 =
      SubmitResult.created (run initState c4busyTr).nextId
        ((run initState c4busyTr).queue.length + 1)) ∧
    ((create_download_task 9 yurl 720 (run initState c4busyTr)).2.queue =
      (run initState c4busyTr).queue ++ [(run initState c4busyTr).nextId]) :=
  ⟨(c4_submit_characterisation 9 yurl 720 (run initState c4fullTr)
      ⟨c4fullTr, rfl⟩).1 (by decide),
   ((c4_submit_characterisation 9 yurl 720 (run initState c4busyTr)
      ⟨c4busyTr, rfl⟩).2 (by decide)).1,
   (((c4_submit_characterisation 9 yurl 720 (run initState c4busyTr)
      ⟨c4busyTr, rfl⟩).2 (by decide)).2.2.1 (by decide))⟩

/-- If some task the reaper scan can reach is eligible (terminal long enough
ago), still has its directory, and its `rmtree` raises, the scan loop ends
with an exception (flag `false`): the raised exception propagates out of the
`for` loop to the cycle-level `except`. -/
theorem cleanupLoop_abort (rmFail : Nat → Bool) (now : Int)
    (entries : List (Nat × TaskRec)) :
    ∀ (s : SchedState) (acc : List Nat) (id : Nat) (t : TaskRec) (c : Int),
    lookupTask entries id = some t → t.completedAt = some c →
    CLEANUP_AFTER_SECONDS < now - c → id ∈ s.dirs → rmFail id = true →
    (cleanupLoop rmFail now entries s acc).2.2 = false := by
  induction entries with
  | nil => intro s acc id t c hl; cases hl
  | cons p rest ih =>
      intro s acc id t c hl hc hage hdir hfail
      obtain ⟨k, u⟩ := p
      by_cases hk : k = id
      · subst hk
        have hu : u = t := by
          simp only [lookupTask, if_pos rfl] at hl
          exact Option.some.inj hl
        subst hu
        simp [cleanupLoop, hc, hage, hdir, hfail]
      · have hl' : lookupTask rest id = some t := by
          simpa only [lookupTask, if_neg hk] using hl
        cases hu : u.completedAt with
        | none => simpa only [cleanupLoop, hu] using ih s acc id t c hl' hc hage hdir hfail
        | some cu =>
            simp only [cleanupLoop, hu]
            by_cases hage' : CLEANUP_AFTER_SECONDS < now - cu
            · rw [if_pos hage']
              by_cases hkdir : k ∈ s.dirs
              · rw [if_pos hkdir]
                cases hkfail : rmFail k with
                | true => rw [if_pos rfl]
                | false =>
                    rw [if_neg (by simp [hkfail])]
                    have hdir' : id ∈ s.dirs.erase k := by
                      have hne : id ≠ k := fun he => hk he.symm
                      exact (List.mem_erase_of_ne hne).mpr hdir
                    exact ih { s with dirs := s.dirs.erase k } (acc ++ [k]) id t c
                      hl' hc hage hdir' hfail
              · rw [if_neg hkdir]
                exact ih s (acc ++ [k]) id t c hl' hc hage hdir hfail
            · rw [if_neg hage']
              exact ih s acc id t c hl' hc hage hdir hfail

/-- Submit/run/finish two tasks (completing at times 1 and 3), so that both
are far past the retention window by time 100000 and both directories
exist. -/
def c5tr : List Event :=
  [Event.submit 0 yurl 720, Event.start,
   Event.finish 1 0 (FetchOutcome.success "T" 10 none),
   Event.submit 2 yurl 720, Event.start,
   Event.finish 3 1 (FetchOutcome.success "T" 10 none)]

/-- C5 counterexample: in a reaper cycle where deleting task 0's files raises
(`rmFail` holds for 0 only), task 1 — also eligible (completed at time 3,
scanned at time 100000, directory present, and its own `rmtree` would not
fail) — is NOT deleted in that cycle: both records and both directories
survive, refuting "every other eligible task is still deleted in that same
cycle". -/
theorem c5_one_failure_skips_other_deletions :
    (lookupTask (run initState c5tr).tasks 1).map TaskRec.completedAt =
      some (some 3) ∧
    1 ∈ (run initState c5tr).dirs ∧
    (1 : Nat) ∉ ([0] : List Nat) ∧
    (cleanup_old_files (fun x => x ∈ ([0] : List Nat)) 100000
        (run initState c5tr)).tasks.map Prod.fst = [0, 1] ∧
    1 ∈ (cleanup_old_files (fun x => x ∈ ([0] : List Nat)) 100000
        (run initState c5tr)).dirs := by
  decide

/-- C5 (amended): a failure while deleting one eligible task's files aborts
the remainder of that reaper cycle — the exception propagates out of the scan
loop to the cycle-level `except`, before `tasks_to_remove` is processed, so NO
task record is removed in that cycle (other eligible tasks are only retried
in a later cycle). -/
theorem c5_failure_aborts_cycle (rmFail : Nat → Bool) (now : Int)
    (s : SchedState) (id : Nat) (t : TaskRec) (c : Int)
    (hl : lookupTask s.tasks id = some t) (hc : t.completedAt = some c)
    (hage : CLEANUP_AFTER_SECONDS < now - c) (hdir : id ∈ s.dirs)
    (hfail : rmFail id = true) :
    (cleanup_old_files rmFail now s).tasks = s.tasks := by
  rcases hres : cleanupLoop rmFail now s.tasks s [] with ⟨s1, rem, flag⟩
  have hflag := cleanupLoop_abort rmFail now s.tasks s [] id t c hl hc hage hdir hfail
  rw [hres] at hflag
  dsimp only at hflag
  subst hflag
  have hfields := cleanupLoop_fields rmFail now s.tasks s []
  rw [hres] at hfields
  simp only [cleanup_old_files, hres]
  exact hfields.1

/-- The first task record produced by `c5tr`. -/
def c5task0 : TaskRec :=
  { url := yurl, quality := 720, status := Status.completed, progress := 100,
    createdAt := 0, completedAt := some 1, errorMsg := none,
    videoInfo := some { title := "T", duration := "0:10", quality := "720p",
                        size := "Уточняется" },
    filePath := none }

/-- C5 witness: the abort theorem applied to the concrete two-task state with
`rmtree` failing on task 0. -/
theorem c5_failure_aborts_cycle_witness :
    (cleanup_old_files (fun x => x ∈ ([0] : List Nat)) 100000
      (run initState c5tr)).tasks = (run initState c5tr).tasks :=
  c5_failure_aborts_cycle (fun x => x ∈ ([0] : List Nat)) 100000
    (run initState c5tr) 0 c5task0 1 (by decide) (by decide) (by decide)
    (by decide) (by decide)

/-- C6: for every task whose fetch step completes successfully, the resolved
quality label stored in `video_info.quality` is `"<min(requested, 720)>p"`
(with `MAX_QUALITY = 720` the fixed platform ceiling), and Submit's only
rejection condition is the queue-capacity check — a request above the ceiling
is capped silently, never rejected. -/
theorem c6_quality_capped (s : SchedState) (id : Nat) (t : TaskRec) (now : Int)
    (title : String) (duration : Nat) (fileSize : Option Nat)
    (url : String) (quality : Nat)
    (ht : lookupTask s.tasks id = some t) :
    ((lookupTask (downloadFinish now id
        (FetchOutcome.success title duration fileSize) s).tasks id).bind
      TaskRec.videoInfo).map VideoInfo.quality =
      some (toString (min t.quality MAX_QUALITY) ++ "p") ∧
    ((create_download_task now url quality s).1 = SubmitResult.queueFull ↔
      MAX_QUEUE_SIZE ≤ s.queue.length) := by
  constructor
  · rw [downloadFinish_eq_some now id (FetchOutcome.success title duration fileSize)
      s t ht]
    rw [advance_tasks]
    dsimp only
    rw [lookupTask_updateTask_self, ht]
    cases fileSize <;> simp [finishUpdate]
  · constructor
    · intro hres
      by_contra hlen
      rw [submit_eq_ok now url quality s (Nat.lt_of_not_le hlen)] at hres
      simp at hres
    · intro hlen
      rw [submit_eq_full now url quality s hlen]

/-- C6 witness: a task submitted with requested quality 1080 completes with
`video_info.quality = "720p"`. -/
theorem c6_quality_capped_witness :
    ((lookupTask (downloadFinish 9 0 (FetchOutcome.success "T" 10 none)
        (run initState [Event.submit 0 yurl 1080])).tasks 0).bind
      TaskRec.videoInfo).map VideoInfo.quality = some "720p" := by
  have h := (c6_quality_capped (run initState [Event.submit 0 yurl 1080]) 0
    (newTask 0 yurl 1080) 9 "T" 10 none yurl 1080 (by decide)).1
  have he : toString (min (newTask 0 yurl 1080).quality MAX_QUALITY) ++ "p" =
      "720p" := by decide
  exact he ▸ h

/-- C9: platform classification is by case-insensitive substring matching —
the URL is lowercased and tested against 'youtube.com'/'youtu.be' (youtube),
then 'vk.com'/'vkvideo.ru' (vk), then 'instagram.com' (instagram), anything
else being unknown — and when a task's URL classifies as unknown, its download
step fails (status 'error') before the fetcher is ever invoked: the fetch-call
counter does not move and no coroutine reaches the executor. -/
theorem c9_platform_detection (url : String) (s : SchedState) (id : Nat)
    (t : TaskRec) (ht : lookupTask s.tasks id = some t)
    (hu : detect_platform t.url = Platform.unknown) :
    (detect_platform url = Platform.youtube ↔
      (strIn "youtube.com".data (url.data.map Char.toLower) = true ∨
       strIn "youtu.be".data (url.data.map Char.toLower) = true)) ∧
    (detect_platform url = Platform.vk ↔
      (¬(strIn "youtube.com".data (url.data.map Char.toLower) = true ∨
         strIn "youtu.be".data (url.data.map Char.toLower) = true) ∧
       (strIn "vk.com".data (url.data.map Char.toLower) = true ∨
        strIn "vkvideo.ru".data (url.data.map Char.toLower) = true))) ∧
    (detect_platform url = Platform.instagram ↔
      (¬(strIn "youtube.com".data (url.data.map Char.toLower) = true ∨
         strIn "youtu.be".data (url.data.map Char.toLower) = true) ∧
       ¬(strIn "vk.com".data (url.data.map Char.toLower) = true ∨
         strIn "vkvideo.ru".data (url.data.map Char.toLower) = true) ∧
       strIn "instagram.com".data (url.data.map Char.toLower) = true)) ∧
    (detect_platform url = Platform.unknown ↔
      (¬(strIn "youtube.com".data (url.data.map Char.toLower) = true ∨
         strIn "youtu.be".data (url.data.map Char.toLower) = true) ∧
       ¬(strIn "vk.com".data (url.data.map Char.toLower) = true ∨
         strIn "vkvideo.ru".data (url.data.map Char.toLower) = true) ∧
       ¬ strIn "instagram.com".data (url.data.map Char.toLower) = true)) ∧
    (downloadStart s id).fetchCalls = s.fetchCalls ∧
    (downloadStart s id).inflight = s.inflight ∧
    (lookupTask (downloadStart s id).tasks id).map TaskRec.status =
      some Status.error := by
  refine ⟨?_, ?_, ?_, ?_, ?_, ?_, ?_⟩
  · cases h1 : strIn "youtube.com".data (url.data.map Char.toLower) <;>
      cases h2 : strIn "youtu.be".data (url.data.map Char.toLower) <;>
      cases h3 : strIn "vk.com".data (url.data.map Char.toLower) <;>
      cases h4 : strIn "vkvideo.ru".data (url.data.map Char.toLower) <;>
      cases h5 : strIn "instagram.com".data (url.data.map Char.toLower) <;>
      simp [detect_platform, h1, h2, h3, h4, h5]
  · cases h1 : strIn "youtube.com".data (url.data.map Char.toLower) <;>
      cases h2 : strIn "youtu.be".data (url.data.map Char.toLower) <;>
      cases h3 : strIn "vk.com".data (url.data.map Char.toLower) <;>
      cases h4 : strIn "vkvideo.ru".data (url.data.map Char.toLower) <;>
      cases h5 : strIn "instagram.com".data (url.data.map Char.toLower) <;>
      simp [detect_platform, h1, h2, h3, h4, h5]
  · cases h1 : strIn "youtube.com".data (url.data.map Char.toLower) <;>
      cases h2 : strIn "youtu.be".data (url.data.map Char.toLower) <;>
      cases h3 : strIn "vk.com".data (url.data.map Char.toLower) <;>
      cases h4 : strIn "vkvideo.ru".data (url.data.map Char.toLower) <;>
      cases h5 : strIn "instagram.com".data (url.data.map Char.toLower) <;>
      simp [detect_platform, h1, h2, h3, h4, h5]
  · cases h1 : strIn "youtube.com".data (url.data.map Char.toLower) <;>
      cases h2 : strIn "youtu.be".data (url.data.map Char.toLower) <;>
      cases h3 : strIn "vk.com".data (url.data.map Char.toLower) <;>
      cases h4 : strIn "vkvideo.ru".data (url.data.map Char.toLower) <;>
      cases h5 : strIn "instagram.com".data (url.data.map Char.toLower) <;>
      simp [detect_platform, h1, h2, h3, h4, h5]
  · rw [downloadStart_eq_unknown s id t ht hu, advance_fetchCalls]
  · rw [downloadStart_eq_unknown s id t ht hu, advance_inflight]
  · rw [downloadStart_eq_unknown s id t ht hu, advance_tasks]
    dsimp only
    rw [lookupTask_updateTask_self, lookupTask_updateTask_self, ht]
    rfl

/-- A reachable state holding a task whose URL matches no platform. -/
def c9tr : List Event := [Event.submit 0 "https://example.com/v" 720]

/-- C9 witness: starting the coroutine of the unsupported-URL task marks it
'error' without touching the fetch-call counter. -/
theorem c9_platform_detection_witness :
    (downloadStart (run initState c9tr) 0).fetchCalls =
      (run initState c9tr).fetchCalls ∧
    (lookupTask (downloadStart (run initState c9tr) 0).tasks 0).map
      TaskRec.status = some Status.error := by
  have h := c9_platform_detection "https://VK.com/v" (run initState c9tr) 0
    (newTask 0 "https://example.com/v" 720) (by decide) (by decide)
  exact ⟨h.2.2.2.2.1, h.2.2.2.2.2.2⟩

/-- A reachable state whose only task is mid-fetch (status 'processing'). -/
def c10tr : List Event := [Event.submit 0 yurl 720, Event.start]

/-- C10: for every id present in the task store — whatever the task's status,
including 'processing' — the cancel operation succeeds without any terminal
or in-flight check: it removes the id from the queue if present, removes the
task's directory if it exists, and removes the record from the store. -/
theorem c10_cancel_any_status (s : SchedState) (hs : Reachable s) (id : Nat)
    (t : TaskRec) (ht : lookupTask s.tasks id = some t) :
    (cancel_task id s).1 = CancelResult.ok ∧
    lookupTask (cancel_task id s).2.tasks id = none ∧
    id ∉ (cancel_task id s).2.queue ∧
    id ∉ (cancel_task id s).2.dirs := by
  rw [cancel_eq_some id s t ht]
  refine ⟨rfl, ?_, ?_, ?_⟩
  · dsimp only
    rw [lookupTask_removeTask]
    simp
  · dsimp only
    by_cases hq : id ∈ s.queue
    · rw [if_pos hq]
      exact (reachable_inv hs).queueNodup.not_mem_erase
    · rw [if_neg hq]
      exact hq
  · dsimp only
    intro hmem
    have hx := List.mem_filter.mp hmem
    simp at hx

/-- The mid-fetch task record produced by `c10tr`. -/
def c10task : TaskRec :=
  { url := yurl, quality := 720, status := Status.processing, progress := 30,
    createdAt := 0, completedAt := none, errorMsg := none,
    videoInfo := none, filePath := none }

/-- C10 witness: cancelling the task while it is 'processing' (mid-fetch)
succeeds and removes record, queue entry and directory. -/
theorem c10_cancel_any_status_witness :
    c10task.status = Status.processing ∧
    (cancel_task 0 (run initState c10tr)).1 = CancelResult.ok ∧
    lookupTask (cancel_task 0 (run initState c10tr)).2.tasks 0 = none ∧
    (0 : Nat) ∉ (cancel_task 0 (run initState c10tr)).2.queue ∧
    (0 : Nat) ∉ (cancel_task 0 (run initState c10tr)).2.dirs :=
  have h := c10_cancel_any_status (run initState c10tr) ⟨c10tr, rfl⟩ 0 c10task
    (by decide)
  ⟨rfl, h.1, h.2.1, h.2.2.1, h.2.2.2⟩

/-- The number of divisions by 1024 that `format_size` performs on a byte
count: the least `k ≤ 4` with `b < 1024 ^ (k+1)`, capped at 4. -/
def sizeExp (b : Nat) : Nat :=
  if b < 1024 then 0
  else if b < 1024 ^ 2 then 1
  else if b < 1024 ^ 3 then 2
  else if b < 1024 ^ 4 then 3
  else 4

/-- The unit reached after `k` divisions by 1024 (the source's Russian unit
labels, in the spec's Bytes/KB/MB/GB/TB order). -/
def sizeUnit : Nat → String
  | 0 => "Б"
  | 1 => "КБ"
  | 2 => "МБ"
  | 3 => "ГБ"
  | _ => "ТБ"

theorem strAppend_assoc (a b c : String) : a ++ b ++ c = a ++ (b ++ c) := by
  obtain ⟨la⟩ := a
  obtain ⟨lb⟩ := b
  obtain ⟨lc⟩ := c
  show String.mk (la ++ lb ++ lc) = String.mk (la ++ (lb ++ lc))
  rw [List.append_assoc]

theorem format_size_eq (b : Nat) :
    format_size (b : ℚ) =
      fmtQ1 ((b : ℚ) / 1024 ^ sizeExp b) ++ " " ++ sizeUnit (sizeExp b) := by
  have key : ∀ k : ℕ, ((b : ℚ) / 1024 ^ k < 1024 ↔ b < 1024 ^ (k + 1)) := by
    intro k
    rw [div_lt_iff₀ (by positivity : (0:ℚ) < 1024 ^ k),
      show (1024:ℚ) * 1024 ^ k = 1024 ^ (k + 1) by rw [pow_succ]; ring]
    exact_mod_cast Iff.rfl
  have k0 : ((b : ℚ) < 1024 ↔ b < 1024) := by exact_mod_cast Iff.rfl
  have hd1 : (b : ℚ) / 1024 = (b : ℚ) / 1024 ^ 1 := by norm_num
  have hd2 : (b : ℚ) / 1024 / 1024 = (b : ℚ) / 1024 ^ 2 := by
    rw [div_div]
    norm_num
  have hd3 : (b : ℚ) / 1024 / 1024 / 1024 = (b : ℚ) / 1024 ^ 3 := by
    rw [div_div, div_div]
    norm_num
  have hd4 : (b : ℚ) / 1024 / 1024 / 1024 / 1024 = (b : ℚ) / 1024 ^ 4 := by
    rw [div_div, div_div, div_div]
    norm_num
  by_cases h0 : b < 1024
  · have hexp : sizeExp b = 0 := by
      simp only [sizeExp]
      rw [if_pos h0]
    have hc : (b : ℚ) < 1024 := k0.mpr h0
    rw [hexp, format_size]
    simp only [format_size_go]
    rw [if_pos hc, show (b:ℚ) / 1024 ^ 0 = (b:ℚ) by norm_num]
    rfl
  · have hc0 : ¬ (b : ℚ) < 1024 := fun hh => h0 (k0.mp hh)
    by_cases h1 : b < 1024 ^ 2
    · have hexp : sizeExp b = 1 := by
        simp only [sizeExp]
        rw [if_neg h0, if_pos h1]
      have hc1 : (b : ℚ) / 1024 < 1024 := by
        rw [hd1]
        exact (key 1).mpr h1
      rw [hexp, format_size]
      simp only [format_size_go]
      rw [if_neg hc0, if_pos hc1, hd1]
      rfl
    · have hc1 : ¬ (b : ℚ) / 1024 < 1024 := by
        rw [hd1]
        exact fun hh => h1 ((key 1).mp hh)
      by_cases h2 : b < 1024 ^ 3
      · have hexp : sizeExp b = 2 := by
          simp only [sizeExp]
          rw [if_neg h0, if_neg h1, if_pos h2]
        have hc2 : (b : ℚ) / 1024 / 1024 < 1024 := by
          rw [hd2]
          exact (key 2).mpr h2
        rw [hexp, format_size]
        simp only [format_size_go]
        rw [if_neg hc0, if_neg hc1, if_pos hc2, hd2]
        rfl
      · have hc2 : ¬ (b : ℚ) / 1024 / 1024 < 1024 := by
          rw [hd2]
          exact fun hh => h2 ((key 2).mp hh)
        by_cases h3 : b < 1024 ^ 4
        · have hexp : sizeExp b = 3 := by
            simp only [sizeExp]
            rw [if_neg h0, if_neg h1, if_neg h2, if_pos h3]
          have hc3 : (b : ℚ) / 1024 / 1024 / 1024 < 1024 := by
            rw [hd3]
            exact (key 3).mpr h3
          rw [hexp, format_size]
          simp only [format_size_go]
          rw [if_neg hc0, if_neg hc1, if_neg hc2, if_pos hc3, hd3]
          rfl
        · have hexp : sizeExp b = 4 := by
            simp only [sizeExp]
            rw [if_neg h0, if_neg h1, if_neg h2, if_neg h3]
          have hc3 : ¬ (b : ℚ) / 1024 / 1024 / 1024 < 1024 := by
            rw [hd3]
            exact fun hh => h3 ((key 3).mp hh)
          rw [hexp, format_size]
          simp only [format_size_go]
          rw [if_neg hc0, if_neg hc1, if_neg hc2, if_neg hc3, hd4,
            show (" ТБ" : String) = " " ++ sizeUnit 4 from rfl, ← strAppend_assoc]

theorem pad2_length : ∀ m : Nat, m < 100 → (pad2 m).length = 2 := by decide

/-- C7 counterexample: a duration of 0 seconds is not rendered as "0:00" — the
Python falsy guard `if not seconds` returns the marker "Неизвестно"
("unknown") instead, so the claimed format does not hold for every
non-negative duration. -/
theorem c7_zero_duration :
    format_duration 0 = "Неизвестно" ∧ format_duration 0 ≠ "0:00" := by
  decide

/-- C7 (amended): for every POSITIVE duration the formatter returns H:MM:SS
(hours unpadded, minutes and seconds two-digit, both below 60) when the
duration is at least one hour and M:SS otherwise, while duration 0 yields
the "Неизвестно" marker; and for every byte count the size formatter
repeatedly divides by 1024 (at most four times) and renders the resulting
value with one decimal place followed by the unit reached in the sequence
Б/КБ/МБ/ГБ/ТБ (the source's Bytes/KB/MB/GB/TB labels). -/
theorem c7_formatters (n : Nat) (hn : 0 < n) (b : Nat) :
    (3600 ≤ n → format_duration n =
      toString (n / 3600) ++ ":" ++ pad2 (n % 3600 / 60) ++ ":" ++ pad2 (n % 60)) ∧
    (n < 3600 → format_duration n =
      toString (n % 3600 / 60) ++ ":" ++ pad2 (n % 60)) ∧
    n % 3600 / 60 < 60 ∧ (pad2 (n % 3600 / 60)).length = 2 ∧
    n % 60 < 60 ∧ (pad2 (n % 60)).length = 2 ∧
    format_size (b : ℚ) =
      fmtQ1 ((b : ℚ) / 1024 ^ sizeExp b) ++ " " ++ sizeUnit (sizeExp b) := by
  have hne : n ≠ 0 := Nat.pos_iff_ne_zero.mp hn
  refine ⟨?_, ?_, by omega, pad2_length _ (by omega), by omega,
    pad2_length _ (by omega), format_size_eq b⟩
  · intro h36
    have hpos : 0 < n / 3600 := Nat.div_pos h36 (by norm_num)
    simp [format_duration, hne, hpos]
  · intro h36
    have hz : n / 3600 = 0 := Nat.div_eq_of_lt h36
    simp [format_duration, hne, hz]

/-- C7 witness: the amended characterisation at one hour one minute forty
seconds and at 2048 bytes. -/
theorem c7_formatters_witness :
    format_duration 3700 =
      toString (3700 / 3600) ++ ":" ++ pad2 (3700 % 3600 / 60) ++ ":" ++
        pad2 (3700 % 60) ∧
    format_size ((2048 : Nat) : ℚ) =
      fmtQ1 (((2048 : Nat) : ℚ) / 1024 ^ sizeExp 2048) ++ " " ++
        sizeUnit (sizeExp 2048) :=
  ⟨(c7_formatters 3700 (by decide) 2048).1 (by decide),
   (c7_formatters 3700 (by decide) 2048).2.2.2.2.2.2⟩

theorem advance_queue_of_cons (s : SchedState) (h : Nat) (rest : List Nat)
    (hp : s.processing = none) (hq : s.queue = h :: rest) :
    (process_next_in_queue s).queue = rest := by
  cases hl : lookupTask s.tasks h with
  | none => rw [advance_eq_gone s h rest hp hq hl]
  | some t =>
      by_cases hst : t.status = Status.queued
      · rw [advance_eq_fresh s h rest t hp hq hl hst]
      · rw [advance_eq_stale s h rest t hp hq hl hst]

/-- C8: the status endpoint reports, for a queued task, a `queue_position`
equal to its 1-based index in the Queue; when the (earlier) head of the Queue
is popped by Advance the reported position decreases by exactly one, and
likewise when an earlier task in the Queue is deleted by the cancel
operation. -/
theorem c8_queue_position (s : SchedState) (hs : Reachable s) (id h e : Nat)
    (t te : TaskRec) (rest : List Nat)
    (hq : s.queue = h :: rest) (hmem : id ∈ rest)
    (ht : lookupTask s.tasks id = some t) (hstat : t.status = Status.queued)
    (hp : s.processing = none)
    (hte : lookupTask s.tasks e = some te) (hemem : e ∈ s.queue)
    (helt : listIndex e s.queue < listIndex id s.queue) :
    posOf s id = some (listIndex id s.queue + 1) ∧
    posOf (process_next_in_queue s) id = some (listIndex id s.queue) ∧
    posOf (cancel_task e s).2 id = some (listIndex id s.queue) := by
  have hidq : id ∈ s.queue := by
    rw [hq]
    exact List.mem_cons_of_mem h hmem
  have hnodup := (reachable_inv hs).queueNodup
  have hhne : h ≠ id := by
    rw [hq, List.nodup_cons] at hnodup
    exact fun heq => hnodup.1 (heq ▸ hmem)
  have hidx : listIndex id s.queue = listIndex id rest + 1 := by
    rw [hq, listIndex_cons_ne id h rest hhne]
  refine ⟨?_, ?_, ?_⟩
  · simp [posOf, get_task_status, ht, hstat, hidq]
  · have hq' : (process_next_in_queue s).queue = rest :=
      advance_queue_of_cons s h rest hp hq
    have ht' : lookupTask (process_next_in_queue s).tasks id = some t := by
      rw [advance_tasks]
      exact ht
    have hidq' : id ∈ (process_next_in_queue s).queue := by
      rw [hq']
      exact hmem
    simp [posOf, get_task_status, ht', hstat, hidq', hq', hidx, hmem]
  · have hene : e ≠ id := by
      intro heq
      rw [heq] at helt
      exact Nat.lt_irrefl _ helt
    have hine : id ≠ e := fun heq => hene heq.symm
    rw [cancel_eq_some e s te hte]
    dsimp only
    rw [if_pos hemem]
    have ht'' : lookupTask (removeTask s.tasks e) id = some t := by
      rw [lookupTask_removeTask, if_neg hine]
      exact ht
    have hidq'' : id ∈ s.queue.erase e := (List.mem_erase_of_ne hine).mpr hidq
    have hiq := listIndex_erase_lt id e s.queue hemem helt
    simp [posOf, get_task_status, ht'', hstat, hidq'', hiq]
    omega

/-- Build a state with a mid-fetch task plus two queued tasks: submit/start
task 0, queue tasks 1,2,3, then finish 0 (which pops 1 into the
created-coroutine list), leaving queue `[2, 3]` with nothing processing. -/
def c8tr : List Event :=
  [Event.submit 0 yurl 720, Event.start, Event.submit 0 yurl 720,
   Event.submit 0 yurl 720, Event.submit 0 yurl 720,
   Event.finish 5 0 (FetchOutcome.success "T" 10 none)]

/-- C8 witness: in the concrete state with queue `[2, 3]`, task 3 is reported
at position 2, and both popping the head and cancelling task 2 move it to
position 1. -/
theorem c8_queue_position_witness :
    posOf (run initState c8tr) 3 =
      some (listIndex 3 (run initState c8tr).queue + 1) ∧
    posOf (process_next_in_queue (run initState c8tr)) 3 =
      some (listIndex 3 (run initState c8tr).queue) ∧
    posOf (cancel_task 2 (run initState c8tr)).2 3 =
      some (listIndex 3 (run initState c8tr).queue) :=
  c8_queue_position (run initState c8tr) ⟨c8tr, rfl⟩ 3 2 2
    (newTask 0 yurl 720) (newTask 0 yurl 720) [3]
    (by decide) (by decide) (by decide) (by decide) (by decide) (by decide)
    (by decide) (by decide)
